import Mathlib

/-!
Verification of the resilient data-access subsystem of the movie app:
the retry-with-backoff executor (`retryWithBackoff`), the search
aggregator (`updateSearchCount`), the trend reader (`getTrendingMovies`),
the duplicate reconciler (`cleanupDuplicateMovies`) from
`src/app/services/appwrite.ts`, and the race-safe fetch controller
(`useFetch`/`fetchData`) from the hook module embedded in the same file.

Remote calls are modelled by explicit outcome functions, the document
store by a `List Doc`, timestamps by `Nat`, and JavaScript errors by
their message `String`.
-/

namespace MovieApp

/-! ## Backoff Executor (`retryWithBackoff`, appwrite.ts lines 74-101)

The JS source loops `for (let i = 0; i < retries; i++)`, calling the
operation once per iteration.  A successful attempt returns immediately;
a failed attempt rethrows the raw error when `i === retries - 1`, else
waits and retries.  If the loop exits without returning (only possible
when `retries = 0`) it throws `new Error(name + " failed after " +
retries + " attempts")`.

The model takes the outcome of attempt `i` from `op i : Except String T`
(errors are identified by their message string) and returns the final
result together with the number of attempts actually made.  The `fuel`
argument counts the remaining loop iterations (`retries - i`), making the
recursion structural. -/

/-- Loop of `retryWithBackoff`: `i` is the current 0-indexed attempt,
`fuel` the number of remaining iterations (`retries - i`). -/
def rwbGo {T : Type} (op : Nat → Except String T) (retries : Nat) (name : String) :
    Nat → Nat → Except String T × Nat
  | i, 0 => (Except.error (name ++ " failed after " ++ toString retries ++ " attempts"), i)
  | i, fuel + 1 =>
    match op i with
    | Except.ok v => (Except.ok v, i + 1)
    | Except.error e =>
      if i + 1 = retries then (Except.error e, i + 1)
      else rwbGo op retries name (i + 1) fuel

/-- `retryWithBackoff(operation, retries, operationName)` of appwrite.ts:
result of the call together with the number of attempts made. -/
def retryWithBackoff {T : Type} (op : Nat → Except String T) (retries : Nat)
    (name : String) : Except String T × Nat :=
  rwbGo op retries name 0 retries

/-- `Except.isError`-style helper for the model. -/
def isErr {T : Type} : Except String T → Bool
  | Except.error _ => true
  | Except.ok _ => false

theorem rwbGo_allFail {T : Type} (op : Nat → Except String T) (retries : Nat)
    (name : String) (hall : ∀ m, m < retries → isErr (op m) = true) :
    ∀ fuel i, i + fuel = retries →
      (rwbGo op retries name i fuel).2 = retries ∧
      isErr (rwbGo op retries name i fuel).1 = true := by
  intro fuel
  induction fuel with
  | zero =>
    intro i hi
    simp only [rwbGo]
    constructor
    · omega
    · rfl
  | succ n ih =>
    intro i hi
    have hilt : i < retries := by omega
    have herr := hall i hilt
    simp only [rwbGo]
    cases hop : op i with
    | ok v => rw [hop] at herr; simp [isErr] at herr
    | error e =>
      by_cases hlast : i + 1 = retries
      · simp [hlast, isErr]
      · simp only [hlast, if_false]
        exact ih (i + 1) (by omega)

theorem rwbGo_firstSuccess {T : Type} (op : Nat → Except String T) (retries : Nat)
    (name : String) (j : Nat) (v : T) (hj : j < retries) (hok : op j = Except.ok v)
    (hbefore : ∀ m, m < j → isErr (op m) = true) :
    ∀ fuel i, i + fuel = retries → i ≤ j →
      rwbGo op retries name i fuel = (Except.ok v, j + 1) := by
  intro fuel
  induction fuel with
  | zero =>
    intro i hi hij
    omega
  | succ n ih =>
    intro i hi hij
    simp only [rwbGo]
    rcases Nat.lt_or_ge i j with hlt | hge
    · have herr := hbefore i hlt
      cases hop : op i with
      | ok w => rw [hop] at herr; simp [isErr] at herr
      | error e =>
        have hlast : ¬ (i + 1 = retries) := by omega
        simp only [hlast, if_false]
        exact ih (i + 1) (by omega) (by omega)
    · have hij' : i = j := by omega
      subst hij'
      rw [hok]

/-- All attempts fail: the call makes exactly `retries` attempts and the
result is an error (never a success). -/
theorem retryWithBackoff_allFail {T : Type} (op : Nat → Except String T)
    (retries : Nat) (name : String)
    (hall : ∀ m, m < retries → isErr (op m) = true) :
    (retryWithBackoff op retries name).2 = retries ∧
    isErr (retryWithBackoff op retries name).1 = true :=
  rwbGo_allFail op retries name hall retries 0 (by omega)

/-- First success at 0-indexed attempt `j < retries`: the call returns that
success with exactly `j + 1` attempts made. -/
theorem retryWithBackoff_firstSuccess {T : Type} (op : Nat → Except String T)
    (retries : Nat) (name : String) (j : Nat) (v : T)
    (hj : j < retries) (hok : op j = Except.ok v)
    (hbefore : ∀ m, m < j → isErr (op m) = true) :
    retryWithBackoff op retries name = (Except.ok v, j + 1) :=
  rwbGo_firstSuccess op retries name j v hj hok hbefore retries 0 (by omega) (by omega)

theorem rwbGo_lastError {T : Type} (op : Nat → Except String T) (retries : Nat)
    (name : String) (e : String) (hret : 1 ≤ retries)
    (hall : ∀ m, m < retries → isErr (op m) = true)
    (hlast : op (retries - 1) = Except.error e) :
    ∀ fuel i, i + fuel = retries → i < retries →
      rwbGo op retries name i fuel = (Except.error e, retries) := by
  intro fuel
  induction fuel with
  | zero =>
    intro i hi hlt
    omega
  | succ n ih =>
    intro i hi hilt
    have herr := hall i hilt
    simp only [rwbGo]
    cases hop : op i with
    | ok w => rw [hop] at herr; simp [isErr] at herr
    | error e' =>
      by_cases hl : i + 1 = retries
      · have : i = retries - 1 := by omega
        subst this
        rw [hlast] at hop
        have he : e = e' := by injection hop
        subst he
        simp [hl]
      · simp only [hl, if_false]
        exact ih (i + 1) (by omega) (by omega)

/-- Exhaustion rethrows the raw last error unchanged. -/
theorem retryWithBackoff_lastError {T : Type} (op : Nat → Except String T)
    (retries : Nat) (name : String) (e : String) (hret : 1 ≤ retries)
    (hall : ∀ m, m < retries → isErr (op m) = true)
    (hlast : op (retries - 1) = Except.error e) :
    retryWithBackoff op retries name = (Except.error e, retries) :=
  rwbGo_lastError op retries name e hret hall hlast retries 0 (by omega) (by omega)

/-- C2 (counterexample): calling the Backoff Executor with `retries = 1`
and an operation whose every attempt fails makes exactly `1` attempt, not
the `1 + 1 = 2` attempts the claim requires (the loop runs `i = 0 ..
retries - 1`, so the operation is attempted `retries` times, not
`retries + 1` times). -/
theorem C2_attempts_counterexample :
    (retryWithBackoff (fun _ => (Except.error "boom" : Except String Nat)) 1 "Op").2 = 1 ∧
    (1 : Nat) ≠ 1 + 1 := by
  constructor
  · rfl
  · omega

/-- C2 (amended): for every fallible operation and every `retries ≥ 0`,
`retryWithBackoff` attempts the operation exactly `retries` times (not
`retries + 1`) when every attempt fails, and only then fails; an
operation that first succeeds on 0-indexed attempt `j < retries` causes
exactly `j + 1` attempts and its success is returned immediately. -/
theorem C2_backoff_attempt_count {T : Type} (op : Nat → Except String T)
    (retries : Nat) (name : String) :
    ((∀ m, m < retries → isErr (op m) = true) →
      (retryWithBackoff op retries name).2 = retries ∧
      ∀ v, (retryWithBackoff op retries name).1 ≠ Except.ok v) ∧
    (∀ j v, j < retries → op j = Except.ok v →
      (∀ m, m < j → isErr (op m) = true) →
      retryWithBackoff op retries name = (Except.ok v, j + 1)) := by
  constructor
  · intro hall
    obtain ⟨hcount, herr⟩ := retryWithBackoff_allFail op retries name hall
    refine ⟨hcount, ?_⟩
    intro v hv
    rw [hv] at herr
    simp [isErr] at herr
  · intro j v hj hok hbefore
    exact retryWithBackoff_firstSuccess op retries name j v hj hok hbefore

/-- C2 (witness): with `retries = 2`, an always-failing operation makes
exactly 2 attempts and fails; an operation succeeding on its first
attempt makes exactly 1 attempt and its success is returned. -/
theorem C2_backoff_attempt_count_witness :
    ((retryWithBackoff (fun _ => (Except.error "e" : Except String Nat)) 2 "Op").2 = 2 ∧
      ∀ v, (retryWithBackoff (fun _ => (Except.error "e" : Except String Nat)) 2 "Op").1
        ≠ Except.ok v) ∧
    retryWithBackoff (fun _ => (Except.ok 5 : Except String Nat)) 2 "Op" =
      (Except.ok 5, 1) :=
  ⟨(C2_backoff_attempt_count (fun _ => (Except.error "e" : Except String Nat)) 2 "Op").1
      (fun m _ => rfl),
    (C2_backoff_attempt_count (fun _ => (Except.ok 5 : Except String Nat)) 2 "Op").2
      0 5 (by omega) rfl (fun m hm => absurd hm (by omega))⟩

/-- C8 (counterexample): with every attempt failing with error message
`"boom"`, the Backoff Executor rethrows exactly that raw error — the
caller receives the raw last failure itself, not a distinguishable
`RetryExhausted` wrapper as the claim states. -/
theorem C8_raw_error_counterexample :
    (retryWithBackoff (fun _ => (Except.error "boom" : Except String Nat)) 3 "Op").1 =
      Except.error "boom" := by
  rfl

/-- C8 (amended): when every attempt of the wrapped operation fails and
`retries ≥ 1`, the Backoff Executor fails by rethrowing the last
underlying error unchanged (same error value, no wrapper), after exactly
`retries` attempts; the caller receives the raw last failure rather than
a distinguishable retry-exhaustion error. -/
theorem C8_exhaustion_rethrows_raw {T : Type} (op : Nat → Except String T)
    (retries : Nat) (name : String) (e : String) (hret : 1 ≤ retries)
    (hall : ∀ m, m < retries → isErr (op m) = true)
    (hlast : op (retries - 1) = Except.error e) :
    retryWithBackoff op retries name = (Except.error e, retries) :=
  retryWithBackoff_lastError op retries name e hret hall hlast

/-- C8 (witness): two attempts failing with messages `"e0"`, `"e1"`: the
call fails with exactly the raw last error `"e1"`. -/
theorem C8_exhaustion_rethrows_raw_witness :
    retryWithBackoff (fun i => (Except.error ("e" ++ toString i) : Except String Nat))
      2 "Op" = (Except.error "e1", 2) :=
  C8_exhaustion_rethrows_raw (fun i => Except.error ("e" ++ toString i)) 2 "Op" "e1"
    (by omega) (fun m _ => rfl) rfl

/-! ## Document store data model

A persisted aggregate document of the trending collection
(`TrendingMovie` plus the legacy `searchTerm` field handled by the
source).  Appwrite's `$id` is modelled as a `Nat`, ISO timestamps as
`Nat` instants, and JS `number` metadata as `Int`.  `Option` marks
fields that may be absent (`undefined`/`null`) on old documents. -/

structure Doc where
  id : Nat
  movie_id : Nat
  count : Option Nat
  searchTerms : Option (List String)
  searchTerm : Option String
  lastSearchTerm : Option String
  lastSearched : Option Nat
  title : String
  poster_url : String
  release_date : Option String
  vote_average : Option Int
  createdAt : Nat
  updatedAt : Option Nat
deriving DecidableEq, Repr

instance : Inhabited Doc :=
  ⟨{ id := 0, movie_id := 0, count := none, searchTerms := none, searchTerm := none,
     lastSearchTerm := none, lastSearched := none, title := "", poster_url := "",
     release_date := none, vote_average := none, createdAt := 0, updatedAt := none }⟩

/-- The `Movie` interface of appwrite.ts (TMDB movie summary). -/
structure Movie where
  id : Nat
  title : String
  poster_path : Option String
  release_date : Option String
  vote_average : Option Int
deriving DecidableEq, Repr

/-- JS `s || null` for an optional string: the empty string is falsy. -/
def orNullStr (s : Option String) : Option String :=
  match s with
  | some t => if t = "" then none else some t
  | none => none

/-- JS `n || null` for an optional number: `0` is falsy. -/
def orNullNum (n : Option Int) : Option Int :=
  match n with
  | some x => if x = 0 then none else some x
  | none => none

/-- `movie.poster_path ? url : placeholder` of the source (the empty
string is falsy in JS). -/
def posterUrl (m : Movie) : String :=
  match orNullStr m.poster_path with
  | some p => "https://image.tmdb.org/t/p/w500" ++ p
  | none => "https://placehold.co/500x750/1a1a1a/ffffff.png"

/-- `doc.count || 0`. -/
def countVal (d : Doc) : Nat := d.count.getD 0

/-- `doc.searchTerms || (doc.searchTerm ? [doc.searchTerm] : [])` — the
term list of a document, handling the legacy single-term field (an empty
legacy string is falsy and yields the empty list). -/
def termsOfDoc (d : Doc) : List String :=
  match d.searchTerms with
  | some ts => ts
  | none =>
    match d.searchTerm with
    | some t => if t = "" then [] else [t]
    | none => []

/-! ## Search Aggregator (`updateSearchCount`, appwrite.ts lines 104-170)

The successful execution of the operation body passed to
`retryWithBackoff`: query the store for documents with
`movie_id == movie.id`; if one exists, patch the first such document
(`updateDocument`), else append a freshly created one
(`createDocument`).  `now` is the current instant
(`new Date().toISOString()`), `newId` the store-assigned id of a created
document; the store bumps `$updatedAt` on every write. -/

/-- The update written back to the first matching document (the
`updateDocument` patch of the found branch, applied to the stored
document `d` whose `$id` matches `existingDoc.$id`). -/
def patchExisting (query : String) (movie : Movie) (now : Nat) (ex : Doc)
    (d : Doc) : Doc :=
  let currentSearchTerms := termsOfDoc ex
  let updatedSearchTerms :=
    if query ∈ currentSearchTerms then currentSearchTerms
    else currentSearchTerms ++ [query]
  if d.id == ex.id then
    { d with
      count := some (countVal ex + 1)
      searchTerms := some updatedSearchTerms
      lastSearchTerm := some query
      lastSearched := some now
      title := movie.title
      poster_url := posterUrl movie
      release_date := orNullStr movie.release_date
      vote_average := orNullNum movie.vote_average
      updatedAt := some now }
  else d

/-- The fresh aggregate of the not-found branch (`createDocument`). -/
def createdDoc (query : String) (movie : Movie) (now : Nat) (newId : Nat) : Doc :=
  { id := newId
    movie_id := movie.id
    count := some 1
    searchTerms := some [query]
    searchTerm := none
    lastSearchTerm := some query
    lastSearched := some now
    title := movie.title
    poster_url := posterUrl movie
    release_date := orNullStr movie.release_date
    vote_average := orNullNum movie.vote_average
    createdAt := now
    updatedAt := some now }

def updateSearchCount (query : String) (movie : Movie) (now : Nat) (newId : Nat)
    (store : List Doc) : List Doc :=
  match store.filter (fun d => d.movie_id == movie.id) with
  | existingDoc :: _ => store.map (patchExisting query movie now existingDoc)
  | [] => store ++ [createdDoc query movie now newId]

theorem map_id_of_eq {α : Type} (f : α → α) :
    ∀ l : List α, (∀ x ∈ l, f x = x) → l.map f = l := by
  intro l
  induction l with
  | nil => intro _; rfl
  | cons a t ih =>
    intro h
    simp only [List.map_cons]
    rw [h a (by simp), ih (fun x hx => h x (by simp [hx]))]

theorem patchExisting_self (query : String) (movie : Movie) (now : Nat) (ex : Doc) :
    (patchExisting query movie now ex ex).count = some (countVal ex + 1) ∧
    (patchExisting query movie now ex ex).lastSearchTerm = some query ∧
    (patchExisting query movie now ex ex).searchTerms =
      some (if query ∈ termsOfDoc ex then termsOfDoc ex
            else termsOfDoc ex ++ [query]) ∧
    (patchExisting query movie now ex ex).id = ex.id ∧
    (patchExisting query movie now ex ex).movie_id = ex.movie_id := by
  simp [patchExisting]

theorem patchExisting_other (query : String) (movie : Movie) (now : Nat)
    (ex d : Doc) (h : d.id ≠ ex.id) : patchExisting query movie now ex d = d := by
  simp [patchExisting, h]

/-- C4 (confirmed): `updateSearchCount` — when a document with
`movie_id = movie.id` exists, the first such document gets its count
incremented by exactly 1, `lastSearchTerm` set to the query, and the
query added to `searchTerms` only when not already present (a repeated
term is not appended twice but the count still increments); all other
documents are unchanged and nothing is created.  When no such document
exists, a new aggregate is appended with `searchTerms = [query]` and
`count = 1`.  The existing document is decomposed positionally as
`pre ++ ex :: post` with no match in `pre` (so `ex` is the first match)
and document ids unique. -/
theorem C4_search_aggregator_upsert (query : String) (movie : Movie)
    (now : Nat) (newId : Nat) :
    (∀ (pre : List Doc) (ex : Doc) (post : List Doc),
      ex.movie_id = movie.id →
      (∀ d ∈ pre, d.movie_id ≠ movie.id) →
      (∀ d, d ∈ pre ∨ d ∈ post → d.id ≠ ex.id) →
      ∃ ex' : Doc,
        updateSearchCount query movie now newId (pre ++ ex :: post) =
          pre ++ ex' :: post ∧
        ex'.count = some (countVal ex + 1) ∧
        ex'.lastSearchTerm = some query ∧
        ex'.searchTerms = some (if query ∈ termsOfDoc ex then termsOfDoc ex
                                else termsOfDoc ex ++ [query]) ∧
        ex'.id = ex.id ∧ ex'.movie_id = ex.movie_id) ∧
    (∀ store : List Doc, (∀ d ∈ store, d.movie_id ≠ movie.id) →
      updateSearchCount query movie now newId store =
        store ++ [createdDoc query movie now newId] ∧
      (createdDoc query movie now newId).searchTerms = some [query] ∧
      (createdDoc query movie now newId).count = some 1 ∧
      (createdDoc query movie now newId).movie_id = movie.id ∧
      (createdDoc query movie now newId).lastSearchTerm = some query) := by
  constructor
  · intro pre ex post hex hpre hids
    have hfilpre : pre.filter (fun d => d.movie_id == movie.id) = [] := by
      rw [List.filter_eq_nil_iff]
      intro d hd
      simp [hpre d hd]
    have hfil : (pre ++ ex :: post).filter (fun d => d.movie_id == movie.id) =
        ex :: post.filter (fun d => d.movie_id == movie.id) := by
      rw [List.filter_append, hfilpre, List.nil_append,
        List.filter_cons_of_pos (by simp [hex])]
    obtain ⟨h1, h2, h3, h4, h5⟩ := patchExisting_self query movie now ex
    refine ⟨patchExisting query movie now ex ex, ?_, h1, h2, h3, h4, h5⟩
    simp only [updateSearchCount, hfil]
    rw [List.map_append, List.map_cons]
    rw [map_id_of_eq _ pre (fun d hd => patchExisting_other query movie now ex d
        (hids d (Or.inl hd))),
      map_id_of_eq _ post (fun d hd => patchExisting_other query movie now ex d
        (hids d (Or.inr hd)))]
  · intro store hnone
    have hfil : store.filter (fun d => d.movie_id == movie.id) = [] := by
      rw [List.filter_eq_nil_iff]
      intro d hd
      simp [hnone d hd]
    refine ⟨?_, rfl, rfl, rfl, rfl⟩
    simp only [updateSearchCount, hfil]

/-- A concrete aggregate document used by the C4 witness. -/
def exDoc7 : Doc :=
  { (default : Doc) with
    id := 1
    movie_id := 7
    count := some 3
    searchTerms := some ["batman"] }

/-- A concrete movie summary used by the C4 witness. -/
def movie7 : Movie :=
  { id := 7, title := "M", poster_path := none, release_date := none,
    vote_average := none }

/-- C4 (witness): a store holding one aggregate for movie 7 with count 3
and terms `["batman"]` is updated in place; a store with no aggregate for
movie 7 gets a fresh aggregate created. -/
theorem C4_search_aggregator_upsert_witness :
    (∃ ex' : Doc,
      updateSearchCount "joker" movie7 50 99 ([] ++ exDoc7 :: []) =
        [] ++ ex' :: [] ∧
      ex'.count = some (countVal exDoc7 + 1) ∧
      ex'.lastSearchTerm = some "joker" ∧
      ex'.searchTerms = some (if "joker" ∈ termsOfDoc exDoc7 then termsOfDoc exDoc7
                              else termsOfDoc exDoc7 ++ ["joker"]) ∧
      ex'.id = exDoc7.id ∧ ex'.movie_id = exDoc7.movie_id) ∧
    (updateSearchCount "joker" movie7 50 99 [] =
        [] ++ [createdDoc "joker" movie7 50 99] ∧
      (createdDoc "joker" movie7 50 99).searchTerms = some ["joker"] ∧
      (createdDoc "joker" movie7 50 99).count = some 1 ∧
      (createdDoc "joker" movie7 50 99).movie_id = 7 ∧
      (createdDoc "joker" movie7 50 99).lastSearchTerm = some "joker") :=
  ⟨(C4_search_aggregator_upsert "joker" movie7 50 99).1 [] exDoc7 []
      rfl (by intro d hd; simp at hd) (by intro d hd; simp at hd),
   (C4_search_aggregator_upsert "joker" movie7 50 99).2 []
      (by intro d hd; simp at hd)⟩

/-! ## Trend Reader (`getTrendingMovies`, appwrite.ts lines 172-204)

The store query `[Query.limit(10), Query.orderDesc('count')]` is
modelled as a stable descending sort on `count` followed by `take 10`;
the client-side pass is the `reduce`-based dedup keyed by `movie_id`
(keep first occurrence) followed by `slice`-style `take 5`.  The whole
call runs through `retryWithBackoff(_, 3, 'GetTrendingMovies')` inside a
`try/catch` that converts any error into the empty list.  `attemptErr i`
injects the failure (if any) of the store query on attempt `i`. -/

/-- Stable insertion sort, descending on `key` (ties keep store order). -/
def insertDescBy (key : Doc → Nat) (d : Doc) : List Doc → List Doc
  | [] => [d]
  | e :: es => if key e > key d then e :: insertDescBy key d es else d :: e :: es

def sortDescBy (key : Doc → Nat) : List Doc → List Doc
  | [] => []
  | d :: ds => insertDescBy key d (sortDescBy key ds)

/-- Rows returned by the store for `[Query.limit(10), Query.orderDesc('count')]`. -/
def listTrendingQuery (store : List Doc) : List Doc :=
  (sortDescBy countVal store).take 10

/-- The source's `reduce`-based duplicate filter: push a row only when no
earlier-kept row has the same `movie_id`. -/
def dedupCode (docs : List Doc) : List Doc :=
  docs.foldl (fun unique movie =>
    if unique.any (fun m => m.movie_id == movie.movie_id) then unique
    else unique ++ [movie]) []

/-- Specification-side dedup: keep the first occurrence of each
`movie_id`, carrying the set of already-seen ids. -/
def dedupKeepFirst (seen : List Nat) : List Doc → List Doc
  | [] => []
  | d :: ds =>
    if d.movie_id ∈ seen then dedupKeepFirst seen ds
    else d :: dedupKeepFirst (d.movie_id :: seen) ds

/-- `getTrendingMovies`: result of the whole call (`Except.ok` models a
normal return, `Except.error` a thrown error). -/
def getTrendingMovies (store : List Doc) (attemptErr : Nat → Option String) :
    Except String (List Doc) :=
  match (retryWithBackoff (fun i =>
      match attemptErr i with
      | some msg => Except.error msg
      | none => Except.ok ((dedupCode (listTrendingQuery store)).take 5))
      3 "GetTrendingMovies").1 with
  | Except.ok movies => Except.ok movies
  | Except.error _ => Except.ok []

theorem dedupKeepFirst_congr (l : List Doc) :
    ∀ s₁ s₂ : List Nat, (∀ x, x ∈ s₁ ↔ x ∈ s₂) →
      dedupKeepFirst s₁ l = dedupKeepFirst s₂ l := by
  induction l with
  | nil => intro s₁ s₂ _; rfl
  | cons d ds ih =>
    intro s₁ s₂ hs
    simp only [dedupKeepFirst]
    by_cases hmem : d.movie_id ∈ s₁
    · rw [if_pos hmem, if_pos ((hs d.movie_id).mp hmem), ih s₁ s₂ hs]
    · rw [if_neg hmem, if_neg (fun h => hmem ((hs d.movie_id).mpr h))]
      rw [ih (d.movie_id :: s₁) (d.movie_id :: s₂) (by intro x; simp [hs x])]

theorem dedupCode_foldl (l : List Doc) :
    ∀ acc : List Doc,
      l.foldl (fun unique movie =>
        if unique.any (fun m => m.movie_id == movie.movie_id) then unique
        else unique ++ [movie]) acc =
      acc ++ dedupKeepFirst (acc.map (fun d => d.movie_id)) l := by
  induction l with
  | nil => intro acc; simp [dedupKeepFirst]
  | cons d ds ih =>
    intro acc
    simp only [List.foldl_cons]
    by_cases hmem : d.movie_id ∈ acc.map (fun d => d.movie_id)
    · have hany : acc.any (fun m => m.movie_id == d.movie_id) = true := by
        simp only [List.any_eq_true, beq_iff_eq]
        simp only [List.mem_map] at hmem
        obtain ⟨m, hm, hid⟩ := hmem
        exact ⟨m, hm, hid⟩
      rw [hany, if_pos rfl, ih acc]
      simp only [dedupKeepFirst, if_pos hmem]
    · have hany : acc.any (fun m => m.movie_id == d.movie_id) = false := by
        simp only [List.any_eq_false, beq_iff_eq]
        intro m hm he
        exact hmem (List.mem_map.mpr ⟨m, hm, he⟩)
      rw [hany, if_neg (by simp), ih (acc ++ [d])]
      simp only [dedupKeepFirst, if_neg hmem, List.append_assoc, List.singleton_append]
      congr 1
      congr 1
      apply dedupKeepFirst_congr
      intro x
      simp [List.mem_map, or_comm]

/-- The source's fold equals the keep-first dedup. -/
theorem dedupCode_eq (l : List Doc) : dedupCode l = dedupKeepFirst [] l := by
  have h := dedupCode_foldl l []
  simpa [dedupCode] using h

theorem dedupKeepFirst_not_seen (l : List Doc) :
    ∀ seen, ∀ d ∈ dedupKeepFirst seen l, d.movie_id ∉ seen := by
  induction l with
  | nil => intro seen d hd; simp [dedupKeepFirst] at hd
  | cons a t ih =>
    intro seen d hd
    simp only [dedupKeepFirst] at hd
    by_cases hmem : a.movie_id ∈ seen
    · rw [if_pos hmem] at hd
      exact ih seen d hd
    · rw [if_neg hmem] at hd
      rcases List.mem_cons.mp hd with he | ht
      · subst he; exact hmem
      · intro hds
        exact (ih _ d ht) (List.mem_cons_of_mem _ hds)

theorem dedupKeepFirst_pairwise (l : List Doc) :
    ∀ seen, List.Pairwise (fun a b => a.movie_id ≠ b.movie_id)
      (dedupKeepFirst seen l) := by
  induction l with
  | nil => intro seen; simp [dedupKeepFirst]
  | cons a t ih =>
    intro seen
    simp only [dedupKeepFirst]
    by_cases hmem : a.movie_id ∈ seen
    · rw [if_pos hmem]; exact ih seen
    · rw [if_neg hmem]
      refine List.Pairwise.cons ?_ (ih _)
      intro b hb hab
      exact (dedupKeepFirst_not_seen t _ b hb) (by simp [hab])

/-- C6 (confirmed): for every store contents, the Trend Reader (with no
query failures) returns normally a list that is the keep-first dedup of
the store's returned order (count descending, over-fetched to 10 rows)
truncated to 5; it has at most 5 records and no two of its records share
a `movie_id`, even when the store holds several rows per movie. -/
theorem C6_trend_reader_dedup (store : List Doc) :
    getTrendingMovies store (fun _ => none) =
      Except.ok ((dedupKeepFirst [] (listTrendingQuery store)).take 5) ∧
    ((dedupKeepFirst [] (listTrendingQuery store)).take 5).length ≤ 5 ∧
    List.Pairwise (fun a b => a.movie_id ≠ b.movie_id)
      ((dedupKeepFirst [] (listTrendingQuery store)).take 5) := by
  refine ⟨?_, ?_, ?_⟩
  · have hrwb := retryWithBackoff_firstSuccess (fun _ =>
        Except.ok ((dedupCode (listTrendingQuery store)).take 5))
      3 "GetTrendingMovies" 0 ((dedupCode (listTrendingQuery store)).take 5)
      (by omega) rfl (fun m hm => absurd hm (by omega))
    simp only [getTrendingMovies]
    rw [hrwb]
    simp [dedupCode_eq]
  · exact List.length_take_le 5 _
  · exact (dedupKeepFirst_pairwise (listTrendingQuery store) []).sublist
      (List.take_sublist 5 _)

/-- C10 (confirmed): for every store contents and every pattern of store
query failures, `getTrendingMovies` never throws: it always returns
normally, and when every one of the 3 attempts fails it returns the
empty list. -/
theorem C10_trend_reader_never_throws (store : List Doc)
    (attemptErr : Nat → Option String) :
    (∃ l, getTrendingMovies store attemptErr = Except.ok l) ∧
    ((∀ i, i < 3 → attemptErr i ≠ none) →
      getTrendingMovies store attemptErr = Except.ok []) := by
  constructor
  · unfold getTrendingMovies
    cases (retryWithBackoff (fun i =>
        match attemptErr i with
        | some msg => Except.error msg
        | none => Except.ok ((dedupCode (listTrendingQuery store)).take 5))
        3 "GetTrendingMovies").1 with
    | ok movies => exact ⟨movies, rfl⟩
    | error e => exact ⟨[], rfl⟩
  · intro hfail
    have hall : ∀ m, m < 3 → isErr ((fun i =>
        match attemptErr i with
        | some msg => Except.error msg
        | none => Except.ok ((dedupCode (listTrendingQuery store)).take 5)) m)
        = true := by
      intro m hm
      cases he : attemptErr m with
      | none => exact absurd he (hfail m hm)
      | some msg => simp [he, isErr]
    obtain ⟨-, herr⟩ := retryWithBackoff_allFail _ 3 "GetTrendingMovies" hall
    unfold getTrendingMovies
    cases hres : (retryWithBackoff (fun i =>
        match attemptErr i with
        | some msg => Except.error msg
        | none => Except.ok ((dedupCode (listTrendingQuery store)).take 5))
        3 "GetTrendingMovies").1 with
    | ok movies => rw [hres] at herr; simp [isErr] at herr
    | error e => rfl

/-- C10 (witness): an empty store whose query fails on every attempt
yields a normal return of the empty list. -/
theorem C10_trend_reader_never_throws_witness :
    getTrendingMovies [] (fun _ => some "network down") = Except.ok [] :=
  (C10_trend_reader_never_throws [] (fun _ => some "network down")).2
    (fun i _ => by simp)

/-! ## Fetch Controller (`useFetch`/`fetchData`, hook module lines 684-747)

The hook state is `{data, loading, error, isStale}` plus the
`requestIdRef` counter and the `isMountedRef` flag.  Each execution of
the `fetchData` body — the initial call of a `fetch()` (retryCount 0) or
an internal retry (retryCount > 0) — first runs its synchronous prefix
(`const requestId = ++requestIdRef.current`, plus the loading reset when
`retryCount === 0`) and later, when the awaited `fetchFunction()`
settles, runs its commit section guarded by
`requestId === requestIdRef.current && isMountedRef.current`; a failed
attempt with `retryCount < retries` changes no state and schedules the
next attempt.

A concurrent execution is a list of events: `start c k` is attempt `k`
of logical fetch call `c` reaching its synchronous prefix, `finish c k`
is that attempt's `fetchFunction()` settling with outcome `oc c k`.
`assigned` records the `requestId` each attempt captured. -/

structure FetchSt (T E : Type) where
  data : Option T
  loading : Bool
  error : Option E
  isStale : Bool
deriving DecidableEq, Repr

structure HookSt (T E : Type) where
  fs : FetchSt T E
  requestId : Nat
  assigned : List ((Nat × Nat) × Nat)
  mounted : Bool
deriving DecidableEq, Repr

inductive FetchEv where
  | start (c k : Nat)
  | finish (c k : Nat)
deriving DecidableEq, Repr

/-- The `requestId` captured by attempt `(c, k)`, if it has started. -/
def lookupAttempt (a : List ((Nat × Nat) × Nat)) (c k : Nat) : Option Nat :=
  (a.find? (fun p => p.1.1 == c && p.1.2 == k)).map (fun p => p.2)

def stepEv {T E : Type} (retries : Nat) (oc : Nat → Nat → Except E T)
    (s : HookSt T E) : FetchEv → HookSt T E
  | FetchEv.start c k =>
    { s with
      requestId := s.requestId + 1
      assigned := ((c, k), s.requestId + 1) :: s.assigned
      fs := if k = 0 then { s.fs with loading := true, error := none, isStale := false }
            else s.fs }
  | FetchEv.finish c k =>
    match lookupAttempt s.assigned c k with
    | none => s
    | some rid =>
      match oc c k with
      | Except.ok r =>
        if rid = s.requestId ∧ s.mounted = true then
          { s with fs := { data := some r, loading := false, error := none, isStale := false } }
        else s
      | Except.error e =>
        if k < retries then s
        else if rid = s.requestId ∧ s.mounted = true then
          { s with fs := { s.fs with loading := false, error := some e, isStale := s.fs.data.isSome } }
        else s

/-- Initial controller state (construction of the hook instance). -/
def initHook (T E : Type) : HookSt T E :=
  { fs := { data := none, loading := false, error := none, isStale := false }
    requestId := 0
    assigned := []
    mounted := true }

def runEvents {T E : Type} (retries : Nat) (oc : Nat → Nat → Except E T)
    (evs : List FetchEv) : HookSt T E :=
  evs.foldl (stepEv retries oc) (initHook T E)

def isStartEv : FetchEv → Bool
  | FetchEv.start _ _ => true
  | FetchEv.finish _ _ => false

theorem stepEv_finish_ctrl {T E : Type} (retries : Nat)
    (oc : Nat → Nat → Except E T) (s : HookSt T E) (c k : Nat) :
    (stepEv retries oc s (FetchEv.finish c k)).requestId = s.requestId ∧
    (stepEv retries oc s (FetchEv.finish c k)).assigned = s.assigned ∧
    (stepEv retries oc s (FetchEv.finish c k)).mounted = s.mounted := by
  cases hl : lookupAttempt s.assigned c k with
  | none => simp [stepEv, hl]
  | some rid =>
    cases hoc : oc c k with
    | ok r =>
      simp only [stepEv, hl, hoc]
      by_cases hg : rid = s.requestId ∧ s.mounted = true
      · rw [if_pos hg]; exact ⟨rfl, rfl, rfl⟩
      · rw [if_neg hg]; exact ⟨rfl, rfl, rfl⟩
    | error e =>
      simp only [stepEv, hl, hoc]
      by_cases hk : k < retries
      · rw [if_pos hk]; exact ⟨rfl, rfl, rfl⟩
      · rw [if_neg hk]
        by_cases hg : rid = s.requestId ∧ s.mounted = true
        · rw [if_pos hg]; exact ⟨rfl, rfl, rfl⟩
        · rw [if_neg hg]; exact ⟨rfl, rfl, rfl⟩

/-- A completion whose captured `requestId` is not the current counter
value is discarded without modifying the observable state. -/
theorem stepEv_finish_superseded {T E : Type} (retries : Nat)
    (oc : Nat → Nat → Except E T) (s : HookSt T E) (c k : Nat)
    (h : ∀ rid, lookupAttempt s.assigned c k = some rid → rid ≠ s.requestId) :
    (stepEv retries oc s (FetchEv.finish c k)).fs = s.fs := by
  cases hl : lookupAttempt s.assigned c k with
  | none => simp [stepEv, hl]
  | some rid =>
    have hne : ¬ (rid = s.requestId ∧ s.mounted = true) := fun hc => h rid hl hc.1
    cases hoc : oc c k with
    | ok r =>
      simp only [stepEv, hl, hoc]
      rw [if_neg hne]
    | error e =>
      simp only [stepEv, hl, hoc]
      by_cases hk : k < retries
      · rw [if_pos hk]
      · rw [if_neg hk, if_neg hne]

theorem lookupAttempt_cons_self (a : List ((Nat × Nat) × Nat)) (c k n : Nat) :
    lookupAttempt (((c, k), n) :: a) c k = some n := by
  simp [lookupAttempt, List.find?]

theorem lookupAttempt_cons_ne (a : List ((Nat × Nat) × Nat)) (c k c' k' n : Nat)
    (h : (c', k') ≠ (c, k)) :
    lookupAttempt (((c, k), n) :: a) c' k' = lookupAttempt a c' k' := by
  have hb : ((c == c' && k == k') : Bool) = false := by
    by_cases hceq : c = c'
    · subst hceq
      have hkne : ¬ (k = k') := by
        intro hkeq
        exact h (by rw [hkeq])
      simp only [beq_self_eq_true, Bool.true_and]
      exact beq_eq_false_iff_ne.mpr hkne
    · have hcb : (c == c') = false := beq_eq_false_iff_ne.mpr hceq
      simp [hcb]
  simp [lookupAttempt, List.find?, hb]

/-- After the most recent `start`, `N` is the current counter value, the
attempt `(c, k)` holds it, and every other started attempt holds a
strictly smaller one. -/
def Ptop {T E : Type} (N c k : Nat) (s : HookSt T E) : Prop :=
  s.requestId = N ∧
  lookupAttempt s.assigned c k = some N ∧
  (∀ c' k', (c', k') ≠ (c, k) →
    ∀ rid, lookupAttempt s.assigned c' k' = some rid → rid < N) ∧
  s.mounted = true

theorem walk_preserves {T E : Type} (retries : Nat) (oc : Nat → Nat → Except E T)
    (N c k : Nat) :
    ∀ (ws : List FetchEv) (s : HookSt T E), Ptop N c k s →
      (∀ e ∈ ws, isStartEv e = false ∧ e ≠ FetchEv.finish c k) →
      (ws.foldl (stepEv retries oc) s).fs = s.fs ∧
      Ptop N c k (ws.foldl (stepEv retries oc) s) := by
  intro ws
  induction ws with
  | nil => intro s hp _; exact ⟨rfl, hp⟩
  | cons e es ih =>
    intro s hp hw
    obtain ⟨hstart, hne⟩ := hw e (List.mem_cons_self e es)
    cases e with
    | start c' k' => simp [isStartEv] at hstart
    | finish c' k' =>
      have hckne : (c', k') ≠ (c, k) := by
        intro hc
        apply hne
        rw [show c' = c from congrArg Prod.fst hc, show k' = k from congrArg Prod.snd hc]
      have hctrl := stepEv_finish_ctrl retries oc s c' k'
      have hfs : (stepEv retries oc s (FetchEv.finish c' k')).fs = s.fs := by
        apply stepEv_finish_superseded
        intro rid hl
        have hlt := hp.2.2.1 c' k' hckne rid hl
        rw [hp.1]
        omega
      have hp' : Ptop N c k (stepEv retries oc s (FetchEv.finish c' k')) := by
        obtain ⟨h1, h2, h3⟩ := hctrl
        exact ⟨by rw [h1, hp.1], by rw [h2]; exact hp.2.1,
          by rw [h2]; exact hp.2.2.1, by rw [h3]; exact hp.2.2.2⟩
      simp only [List.foldl_cons]
      obtain ⟨hfs', hp''⟩ := ih (stepEv retries oc s (FetchEv.finish c' k')) hp'
        (fun x hx => hw x (List.mem_cons_of_mem _ hx))
      exact ⟨by rw [hfs', hfs], hp''⟩

/-- Every started attempt holds a counter value at most the current one,
and the controller is mounted. -/
def Qinv {T E : Type} (s : HookSt T E) : Prop :=
  (∀ c k rid, lookupAttempt s.assigned c k = some rid → rid ≤ s.requestId) ∧
  s.mounted = true

theorem Qinv_step {T E : Type} (retries : Nat) (oc : Nat → Nat → Except E T)
    (s : HookSt T E) (e : FetchEv) (hq : Qinv s) :
    Qinv (stepEv retries oc s e) := by
  cases e with
  | start c k =>
    constructor
    · intro c' k' rid hl
      simp only [stepEv] at hl ⊢
      by_cases hck : (c', k') = (c, k)
      · rw [show c' = c from congrArg Prod.fst hck,
          show k' = k from congrArg Prod.snd hck, lookupAttempt_cons_self] at hl
        injection hl with h
        omega
      · rw [lookupAttempt_cons_ne _ _ _ _ _ _ hck] at hl
        have := hq.1 c' k' rid hl
        omega
    · simp only [stepEv]
      exact hq.2
  | finish c k =>
    obtain ⟨h1, h2, h3⟩ := stepEv_finish_ctrl retries oc s c k
    constructor
    · intro c' k' rid hl
      rw [h2] at hl
      rw [h1]
      exact hq.1 c' k' rid hl
    · rw [h3]; exact hq.2

theorem Qinv_foldl {T E : Type} (retries : Nat) (oc : Nat → Nat → Except E T) :
    ∀ (evs : List FetchEv) (s : HookSt T E), Qinv s →
      Qinv (evs.foldl (stepEv retries oc) s) := by
  intro evs
  induction evs with
  | nil => intro s hq; exact hq
  | cons e es ih =>
    intro s hq
    exact ih _ (Qinv_step retries oc s e hq)

theorem Ptop_after_start {T E : Type} (retries : Nat) (oc : Nat → Nat → Except E T)
    (s : HookSt T E) (c k : Nat) (hq : Qinv s) :
    Ptop (s.requestId + 1) c k (stepEv retries oc s (FetchEv.start c k)) := by
  refine ⟨rfl, ?_, ?_, hq.2⟩
  · simp only [stepEv]
    exact lookupAttempt_cons_self _ c k _
  · intro c' k' hck rid hl
    simp only [stepEv] at hl
    rw [lookupAttempt_cons_ne _ _ _ _ _ _ hck] at hl
    have := hq.1 c' k' rid hl
    omega

theorem stepEv_commit_ok {T E : Type} (retries : Nat) (oc : Nat → Nat → Except E T)
    (s : HookSt T E) (c k : Nat) (r : T)
    (hcur : lookupAttempt s.assigned c k = some s.requestId)
    (hlive : s.mounted = true) (hok : oc c k = Except.ok r) :
    (stepEv retries oc s (FetchEv.finish c k)).fs =
      { data := some r, loading := false, error := none, isStale := false } := by
  simp only [stepEv, hcur, hok]
  simp [hlive]

theorem stepEv_commit_err {T E : Type} (retries : Nat) (oc : Nat → Nat → Except E T)
    (s : HookSt T E) (c k : Nat) (e : E)
    (hcur : lookupAttempt s.assigned c k = some s.requestId)
    (hlive : s.mounted = true) (hterm : retries ≤ k)
    (herr : oc c k = Except.error e) :
    (stepEv retries oc s (FetchEv.finish c k)).fs =
      { s.fs with loading := false, error := some e, isStale := s.fs.data.isSome } := by
  simp only [stepEv, hcur, herr]
  rw [if_neg (show ¬ k < retries by omega)]
  simp [hlive]

/-- Outcomes for the C1 counterexample: logical fetch call 0 fails on its
first attempt and succeeds with value 10 on its retry; call 1 succeeds
with value 20 on its first attempt. -/
def ocCex : Nat → Nat → Except String Nat := fun c kk =>
  if c = 0 then (if kk = 0 then Except.error "transient" else Except.ok 10)
  else Except.ok 20

/-- Schedule for the C1 counterexample, with `retries = 1`: call 0 starts
(requestId 1) and its first attempt fails (non-terminal); call 1 — the
call issued last — starts (requestId 2); call 0's internal retry starts
(requestId 3); call 1's operation settles (dropped: 2 ≠ 3); call 0's
retry settles (committed: 3 = 3). -/
def traceCex : List FetchEv :=
  [FetchEv.start 0 0, FetchEv.finish 0 0, FetchEv.start 1 0, FetchEv.start 0 1,
   FetchEv.finish 1 0, FetchEv.finish 0 1]

/-- C1 (counterexample): with `retries = 1`, after all operations of the
schedule `traceCex` have settled, the final committed `data` is the
result (10) of fetch call 0 — even though fetch call 1, which took the
larger requestId (2 vs 1) at issue time, returned 20.  The internal
retry of call 0 captured a fresh, larger requestId (3) and superseded
the later-issued call, so the claim's last-issued-call guarantee fails
on the code. -/
theorem C1_counterexample :
    (runEvents 1 ocCex traceCex).fs.data = some 10 ∧
    (runEvents 1 ocCex traceCex).fs.data ≠ some 20 := by
  decide

/-- C1 (amended): the final observable state corresponds to the attempt
(initial call or internal retry) that captured the largest requestId —
last-writer-wins by attempt start order, not by fetch issue order (with
`retries = 0` every attempt is an initial call, so this coincides with
the claim's last-issued-call guarantee).  For any schedule
`xs ++ start c k :: (ys ++ finish c k :: zs)` in which attempt `(c, k)`
is the last one to start and settles terminally (`ys`, `zs` contain no
further starts and no duplicate settlement of `(c, k)`): if the attempt
succeeds with `r`, the final state is
`{data := some r, loading := false, error := none, isStale := false}`
regardless of the other completions in `ys`/`zs`; if it fails
terminally, the final `error`/`loading` reflect that failure.  Moreover
a result arriving for a superseded requestId is always discarded without
modifying the observable state. -/
theorem C1_last_attempt_wins {T E : Type} (retries : Nat)
    (oc : Nat → Nat → Except E T) (c k : Nat) (xs ys zs : List FetchEv)
    (hys : ∀ e ∈ ys, isStartEv e = false ∧ e ≠ FetchEv.finish c k)
    (hzs : ∀ e ∈ zs, isStartEv e = false ∧ e ≠ FetchEv.finish c k) :
    (∀ r, oc c k = Except.ok r →
      (runEvents retries oc
        (xs ++ FetchEv.start c k :: (ys ++ FetchEv.finish c k :: zs))).fs =
        { data := some r, loading := false, error := none, isStale := false }) ∧
    (∀ e, oc c k = Except.error e → retries ≤ k →
      (runEvents retries oc
        (xs ++ FetchEv.start c k :: (ys ++ FetchEv.finish c k :: zs))).fs.error =
          some e ∧
      (runEvents retries oc
        (xs ++ FetchEv.start c k :: (ys ++ FetchEv.finish c k :: zs))).fs.loading =
          false) ∧
    (∀ (s : HookSt T E) (c' k' : Nat),
      (∀ rid, lookupAttempt s.assigned c' k' = some rid → rid ≠ s.requestId) →
      (stepEv retries oc s (FetchEv.finish c' k')).fs = s.fs) := by
  set s0 := xs.foldl (stepEv retries oc) (initHook T E) with hs0def
  set s1 := stepEv retries oc s0 (FetchEv.start c k) with hs1def
  set s2 := ys.foldl (stepEv retries oc) s1 with hs2def
  set s3 := stepEv retries oc s2 (FetchEv.finish c k) with hs3def
  have hrun : runEvents retries oc
      (xs ++ FetchEv.start c k :: (ys ++ FetchEv.finish c k :: zs)) =
      zs.foldl (stepEv retries oc) s3 := by
    simp only [runEvents, List.foldl_append, List.foldl_cons, hs0def, hs1def,
      hs2def, hs3def]
  have hq0 : Qinv s0 := by
    rw [hs0def]
    apply Qinv_foldl
    constructor
    · intro c0 k0 rid hl
      simp [lookupAttempt, initHook] at hl
    · rfl
  have hp1 : Ptop (s0.requestId + 1) c k s1 := by
    rw [hs1def]
    exact Ptop_after_start retries oc s0 c k hq0
  obtain ⟨hfs2, hp2⟩ := walk_preserves retries oc (s0.requestId + 1) c k ys s1 hp1 hys
  rw [← hs2def] at hfs2 hp2
  have hcur : lookupAttempt s2.assigned c k = some s2.requestId := by
    rw [hp2.1]
    exact hp2.2.1
  have hlive : s2.mounted = true := hp2.2.2.2
  have hp3 : Ptop (s0.requestId + 1) c k s3 := by
    obtain ⟨h1, h2, h3⟩ := stepEv_finish_ctrl retries oc s2 c k
    rw [← hs3def] at h1 h2 h3
    exact ⟨by rw [h1]; exact hp2.1, by rw [h2]; exact hp2.2.1,
      by rw [h2]; exact hp2.2.2.1, by rw [h3]; exact hp2.2.2.2⟩
  obtain ⟨hfs4, -⟩ := walk_preserves retries oc (s0.requestId + 1) c k zs s3 hp3 hzs
  refine ⟨?_, ?_, ?_⟩
  · intro r hok
    rw [hrun, hfs4, hs3def]
    exact stepEv_commit_ok retries oc s2 c k r hcur hlive hok
  · intro e he hterm
    rw [hrun, hfs4, hs3def,
      stepEv_commit_err retries oc s2 c k e hcur hlive hterm he]
    exact ⟨rfl, rfl⟩
  · intro s c' k' h
    exact stepEv_finish_superseded retries oc s c' k' h

/-- C1 (witness): a single fetch call with `retries = 0` that starts and
then settles successfully with 7 commits exactly that result. -/
theorem C1_last_attempt_wins_witness :
    (runEvents 0 (fun _ _ => (Except.ok 7 : Except String Nat))
      ([] ++ FetchEv.start 0 0 :: ([] ++ FetchEv.finish 0 0 :: []))).fs =
      { data := some 7, loading := false, error := none, isStale := false } :=
  (C1_last_attempt_wins 0 (fun _ _ => Except.ok 7) 0 0 [] [] []
    (fun e he => absurd he (List.not_mem_nil e))
    (fun e he => absurd he (List.not_mem_nil e))).1 7 rfl

/-- C7 (confirmed): when an attempt's retries are exhausted
(`retries ≤ k`, terminal failure) and the attempt still holds the
current requestId on a mounted controller, the controller commits the
error, sets `loading` to false, sets `isStale` to true if and only if
`data` already holds a previous successful result, and leaves `data`
itself unchanged. -/
theorem C7_terminal_failure_commit {T E : Type} (retries : Nat)
    (oc : Nat → Nat → Except E T) (s : HookSt T E) (c k : Nat) (e : E)
    (hcur : lookupAttempt s.assigned c k = some s.requestId)
    (hlive : s.mounted = true) (hterm : retries ≤ k)
    (herr : oc c k = Except.error e) :
    (stepEv retries oc s (FetchEv.finish c k)).fs.error = some e ∧
    (stepEv retries oc s (FetchEv.finish c k)).fs.loading = false ∧
    ((stepEv retries oc s (FetchEv.finish c k)).fs.isStale = true ↔
      s.fs.data ≠ none) ∧
    (stepEv retries oc s (FetchEv.finish c k)).fs.data = s.fs.data := by
  rw [stepEv_commit_err retries oc s c k e hcur hlive hterm herr]
  refine ⟨rfl, rfl, ?_, rfl⟩
  simp [Option.isSome_iff_ne_none]

/-- A controller state holding previous data, used by the C7 witness. -/
def hookStWithData : HookSt Nat String :=
  { fs := { data := some 5, loading := true, error := none, isStale := false }
    requestId := 1
    assigned := [((0, 0), 1)]
    mounted := true }

/-- C7 (witness): a terminal failure of the current attempt on a mounted
controller that already holds data 5 commits the error, clears loading,
marks the state stale (data present), and keeps the data. -/
theorem C7_terminal_failure_commit_witness :
    (stepEv 0 (fun _ _ => (Except.error "boom" : Except String Nat))
      hookStWithData (FetchEv.finish 0 0)).fs.error = some "boom" ∧
    (stepEv 0 (fun _ _ => (Except.error "boom" : Except String Nat))
      hookStWithData (FetchEv.finish 0 0)).fs.loading = false ∧
    ((stepEv 0 (fun _ _ => (Except.error "boom" : Except String Nat))
      hookStWithData (FetchEv.finish 0 0)).fs.isStale = true ↔
      hookStWithData.fs.data ≠ none) ∧
    (stepEv 0 (fun _ _ => (Except.error "boom" : Except String Nat))
      hookStWithData (FetchEv.finish 0 0)).fs.data = hookStWithData.fs.data :=
  C7_terminal_failure_commit 0 (fun _ _ => Except.error "boom") hookStWithData
    0 0 "boom" rfl rfl (by omega) rfl

/-! ## Duplicate Reconciler (`cleanupDuplicateMovies`, appwrite.ts lines 207-285)

The source loads up to 100 documents (`Query.limit(100)`), groups them
by `movie_id` in a plain JS object (integer-like keys iterate in
ascending numeric order), and for each group with more than one member
sums the counts, unions the term lists (`[...new Set(...)]` keeps first
occurrences), keeps the member with the latest `$updatedAt` (falling
back to `$createdAt`; JS `sort` is stable, so ties keep load order),
writes the merged data to the kept document and deletes the rest.  The
result value is `{duplicatesFound, duplicatesRemoved}`. -/

/-- `new Date(d.$updatedAt || d.$createdAt).getTime()`. -/
def effTime (d : Doc) : Nat :=
  match d.updatedAt with
  | some t => t
  | none => d.createdAt

/-- `[...new Set(l)]`: keep the first occurrence of each string. -/
def dedupStringsAux (seen : List String) : List String → List String
  | [] => []
  | s :: ss =>
    if s ∈ seen then dedupStringsAux seen ss
    else s :: dedupStringsAux (s :: seen) ss

/-- `docs.reduce((sum, doc) => sum + (doc.count || 0), 0)`. -/
def groupCount (group : List Doc) : Nat :=
  group.foldl (fun s d => s + countVal d) 0

/-- `docs.reduce((terms, doc) => [...new Set([...terms, ...docTerms])], [])`. -/
def groupTerms (group : List Doc) : List String :=
  group.foldl (fun terms d => dedupStringsAux [] (terms ++ termsOfDoc d)) []

/-- The merge patch written to the kept document (`updateDocument` plus
the store's `$updatedAt` bump). -/
def mergePatch (now : Nat) (group : List Doc) (d : Doc) : Doc :=
  { d with
    count := some (groupCount group)
    searchTerms := some (groupTerms group)
    lastSearchTerm := some ((groupTerms group).getLastD "")
    lastSearched := some now
    updatedAt := some now }

/-- Effect of one duplicate group on the collection: patch the kept
(most recent) document, delete the others by id. -/
def processGroup (now : Nat) (st : List Doc) (group : List Doc) : List Doc :=
  match sortDescBy effTime group with
  | [] => st
  | keep :: rest =>
    (st.map (fun d => if d.id == keep.id then mergePatch now group d else d)).filter
      (fun d => !((rest.map (fun r => r.id)).contains d.id))

/-- Keep first occurrence of each `Nat` (JS object key collection). -/
def dedupNats (seen : List Nat) : List Nat → List Nat
  | [] => []
  | n :: ns =>
    if n ∈ seen then dedupNats seen ns
    else n :: dedupNats (n :: seen) ns

def insertAsc (n : Nat) : List Nat → List Nat
  | [] => [n]
  | m :: ms => if n ≤ m then n :: m :: ms else m :: insertAsc n ms

def sortAsc : List Nat → List Nat
  | [] => []
  | n :: ns => insertAsc n (sortAsc ns)

/-- The distinct `movie_id` keys of the loaded documents, in the
ascending numeric order in which `Object.entries` iterates them. -/
def groupKeys (allDocs : List Doc) : List Nat :=
  sortAsc (dedupNats [] (allDocs.map (fun d => d.movie_id)))

def cleanupStep (now : Nat) (allDocs : List Doc) (acc : List Doc × Nat × Nat)
    (m : Nat) : List Doc × Nat × Nat :=
  let group := allDocs.filter (fun d => d.movie_id == m)
  if group.length > 1 then
    (processGroup now acc.1 group, acc.2.1 + 1, acc.2.2 + (group.length - 1))
  else acc

/-- `cleanupDuplicateMovies` (no-failure run): final collection state,
`duplicatesFound` and `duplicatesRemoved`. -/
def cleanupDuplicateMovies (now : Nat) (store : List Doc) :
    List Doc × Nat × Nat :=
  let allDocs := store.take 100
  (groupKeys allDocs).foldl (cleanupStep now allDocs) (store, 0, 0)

/-- The canonical (kept) member of a duplicate group: latest
`effTime`, first of the group order among ties. -/
def canonicalOf (group : List Doc) : Doc :=
  (sortDescBy effTime group).headD default

/-- The merged document a duplicate group collapses to. -/
def mergedDoc (now : Nat) (group : List Doc) : Doc :=
  mergePatch now group (canonicalOf group)

/-- Concatenation of all members' term lists, in group order. -/
def termsConcat : List Doc → List String
  | [] => []
  | d :: ds => termsOfDoc d ++ termsConcat ds

theorem insertDescBy_perm (key : Doc → Nat) (d : Doc) :
    ∀ l : List Doc, (insertDescBy key d l).Perm (d :: l) := by
  intro l
  induction l with
  | nil => simp [insertDescBy]
  | cons e es ih =>
    simp only [insertDescBy]
    by_cases h : key e > key d
    · rw [if_pos h]
      exact (ih.cons e).trans (List.Perm.swap d e es)
    · rw [if_neg h]

theorem sortDescBy_perm (key : Doc → Nat) :
    ∀ l : List Doc, (sortDescBy key l).Perm l := by
  intro l
  induction l with
  | nil => simp [sortDescBy]
  | cons d ds ih =>
    simp only [sortDescBy]
    exact (insertDescBy_perm key d (sortDescBy key ds)).trans (ih.cons d)

theorem insertAsc_perm (n : Nat) :
    ∀ l : List Nat, (insertAsc n l).Perm (n :: l) := by
  intro l
  induction l with
  | nil => simp [insertAsc]
  | cons m ms ih =>
    simp only [insertAsc]
    by_cases h : n ≤ m
    · rw [if_pos h]
    · rw [if_neg h]
      exact (ih.cons m).trans (List.Perm.swap n m ms)

theorem sortAsc_perm : ∀ l : List Nat, (sortAsc l).Perm l := by
  intro l
  induction l with
  | nil => simp [sortAsc]
  | cons n ns ih =>
    simp only [sortAsc]
    exact (insertAsc_perm n (sortAsc ns)).trans (ih.cons n)

theorem dedupNats_mem (l : List Nat) :
    ∀ seen x, x ∈ dedupNats seen l ↔ x ∈ l ∧ x ∉ seen := by
  induction l with
  | nil => intro seen x; simp [dedupNats]
  | cons n ns ih =>
    intro seen x
    simp only [dedupNats]
    by_cases hn : n ∈ seen
    · rw [if_pos hn, ih seen x]
      constructor
      · rintro ⟨hx, hs⟩
        exact ⟨List.mem_cons_of_mem _ hx, hs⟩
      · rintro ⟨hx, hs⟩
        rcases List.mem_cons.mp hx with he | ht
        · subst he; exact absurd hn hs
        · exact ⟨ht, hs⟩
    · rw [if_neg hn]
      constructor
      · intro hx
        rcases List.mem_cons.mp hx with he | ht
        · subst he; exact ⟨List.mem_cons_self _ _, hn⟩
        · obtain ⟨h1, h2⟩ := (ih (n :: seen) x).mp ht
          refine ⟨List.mem_cons_of_mem _ h1, ?_⟩
          intro hs
          exact h2 (List.mem_cons_of_mem _ hs)
      · rintro ⟨hx, hs⟩
        rcases List.mem_cons.mp hx with he | ht
        · subst he; exact List.mem_cons_self x _
        · by_cases hxn : x = n
          · subst hxn; exact List.mem_cons_self x _
          · refine List.mem_cons_of_mem _ ((ih (n :: seen) x).mpr ⟨ht, ?_⟩)
            intro hcons
            rcases List.mem_cons.mp hcons with h1 | h2
            · exact hxn h1
            · exact hs h2

theorem dedupNats_nodup (l : List Nat) : ∀ seen, (dedupNats seen l).Nodup := by
  induction l with
  | nil => intro seen; simp [dedupNats]
  | cons n ns ih =>
    intro seen
    simp only [dedupNats]
    by_cases hn : n ∈ seen
    · rw [if_pos hn]; exact ih seen
    · rw [if_neg hn]
      refine List.Nodup.cons ?_ (ih (n :: seen))
      intro hmem
      exact ((dedupNats_mem ns (n :: seen) n).mp hmem).2 (List.mem_cons_self n seen)

theorem groupKeys_nodup (allDocs : List Doc) : (groupKeys allDocs).Nodup :=
  ((sortAsc_perm _).nodup_iff).mpr (dedupNats_nodup _ [])

theorem groupKeys_mem (allDocs : List Doc) (m : Nat) :
    m ∈ groupKeys allDocs ↔ m ∈ allDocs.map (fun d => d.movie_id) := by
  unfold groupKeys
  rw [(sortAsc_perm _).mem_iff, dedupNats_mem]
  simp

theorem dedupStringsAux_absorb (a : List String) :
    ∀ seen b, dedupStringsAux seen (dedupStringsAux seen a ++ b) =
      dedupStringsAux seen (a ++ b) := by
  induction a with
  | nil => intro seen b; rfl
  | cons s ss ih =>
    intro seen b
    by_cases hs : s ∈ seen
    · simp only [List.cons_append, dedupStringsAux, if_pos hs]
      exact ih seen b
    · simp only [List.cons_append, dedupStringsAux, if_neg hs]
      rw [ih (s :: seen) b]
      rfl

theorem groupTerms_foldl (g : List Doc) :
    ∀ acc0 : List String,
      g.foldl (fun terms d => dedupStringsAux [] (terms ++ termsOfDoc d))
        (dedupStringsAux [] acc0) =
      dedupStringsAux [] (acc0 ++ termsConcat g) := by
  induction g with
  | nil => intro acc0; simp [termsConcat]
  | cons d ds ih =>
    intro acc0
    simp only [List.foldl_cons, termsConcat]
    rw [dedupStringsAux_absorb, ih (acc0 ++ termsOfDoc d), List.append_assoc]

/-- The source's term-merging fold computes the duplicate-free union (in
first-occurrence order) of all members' term lists. -/
theorem groupTerms_eq (g : List Doc) :
    groupTerms g = dedupStringsAux [] (termsConcat g) := by
  have h := groupTerms_foldl g []
  simpa [groupTerms] using h

theorem groupCount_foldl (g : List Doc) :
    ∀ n : Nat, g.foldl (fun s d => s + countVal d) n = n + (g.map countVal).sum := by
  induction g with
  | nil => intro n; simp
  | cons d ds ih =>
    intro n
    simp only [List.foldl_cons, List.map_cons, List.sum_cons]
    rw [ih (n + countVal d)]
    omega

/-- The source's count-merging fold computes the sum of the members'
counts. -/
theorem groupCount_eq (g : List Doc) : groupCount g = (g.map countVal).sum := by
  have h := groupCount_foldl g 0
  simpa [groupCount] using h

theorem sortDescBy_head_max (key : Doc → Nat) :
    ∀ (l : List Doc), ∀ d ∈ l, key d ≤ key ((sortDescBy key l).headD default) := by
  intro l
  induction l with
  | nil => intro d hd; simp at hd
  | cons a t ih =>
    intro d hd
    simp only [sortDescBy]
    cases hs : sortDescBy key t with
    | nil =>
      have : t = [] := List.eq_nil_of_length_eq_zero (by
        have := (sortDescBy_perm key t).length_eq
        rw [hs] at this
        simpa using this.symm)
      subst this
      simp only [List.mem_cons, List.not_mem_nil, or_false] at hd
      subst hd
      simp [insertDescBy]
    | cons h0 t0 =>
      simp only [insertDescBy]
      by_cases hgt : key h0 > key a
      · rw [if_pos hgt]
        simp only [List.headD_cons]
        rcases List.mem_cons.mp hd with he | ht
        · subst he; omega
        · have := ih d ht
          rw [hs] at this
          simpa using this
      · rw [if_neg hgt]
        simp only [List.headD_cons]
        rcases List.mem_cons.mp hd with he | ht
        · subst he; exact Nat.le_refl _
        · have := ih d ht
          rw [hs] at this
          simp only [List.headD_cons] at this
          omega

theorem mergePatch_id (now : Nat) (group : List Doc) (d : Doc) :
    (mergePatch now group d).id = d.id := rfl

theorem mergePatch_movie_id (now : Nat) (group : List Doc) (d : Doc) :
    (mergePatch now group d).movie_id = d.movie_id := rfl

theorem filter_comm_docs (p q : Doc → Bool) :
    ∀ l : List Doc, (l.filter q).filter p = (l.filter p).filter q := by
  intro l
  induction l with
  | nil => rfl
  | cons a t ih =>
    cases hq : q a <;> cases hp : p a <;>
      simp [List.filter_cons, hq, hp, ih]

theorem map_filter_pres (f : Doc → Doc) (p : Doc → Bool)
    (hf : ∀ d, p (f d) = p d) :
    ∀ l : List Doc, (l.map f).filter p = (l.filter p).map f := by
  intro l
  induction l with
  | nil => rfl
  | cons a t ih =>
    cases hp : p a <;>
      simp [List.filter_cons, hf a, hp, ih]

theorem map_eq_map_of {α β : Type} (f g : α → β) :
    ∀ l : List α, (∀ x ∈ l, f x = g x) → l.map f = l.map g := by
  intro l
  induction l with
  | nil => intro _; rfl
  | cons a t ih =>
    intro h
    simp only [List.map_cons]
    rw [h a (List.mem_cons_self _ _), ih (fun x hx => h x (List.mem_cons_of_mem _ hx))]

theorem filter_untouched (patchF : Doc → Doc) (q p : Doc → Bool)
    (hpres : ∀ d, p (patchF d) = p d) :
    ∀ st : List Doc,
      (∀ d ∈ st, p d = true → patchF d = d ∧ q d = true) →
      ((st.map patchF).filter q).filter p = st.filter p := by
  intro st
  induction st with
  | nil => intro _; rfl
  | cons a t ih =>
    intro h
    have ht := ih (fun d hd => h d (List.mem_cons_of_mem _ hd))
    by_cases hp : p a = true
    · obtain ⟨hpatch, hq⟩ := h a (List.mem_cons_self _ _) hp
      simp [List.filter_cons, hpatch, hq, hp, ht]
    · have hpf : p a = false := by
        revert hp
        cases p a <;> simp
      have hpfa : p (patchF a) = false := by rw [hpres a, hpf]
      cases hqa : q (patchF a) with
      | true => simp [List.filter_cons, hqa, hpf, hpfa, ht]
      | false => simp [List.filter_cons, hqa, hpf, ht]

/-- Effect of `processGroup` on one duplicate group: the group collapses
to exactly the merged canonical document, every other `movie_id` is
untouched, id-uniqueness is preserved, and every surviving document
descends (same id, same movie id) from a document of the input state. -/
theorem processGroup_spec (now m : Nat) (st group : List Doc)
    (hgrp : st.filter (fun d => d.movie_id == m) = group)
    (hlen : 2 ≤ group.length)
    (hnod : (st.map (fun d => d.id)).Nodup) :
    (processGroup now st group).filter (fun d => d.movie_id == m) =
      [mergedDoc now group] ∧
    (∀ m', m' ≠ m → (processGroup now st group).filter (fun d => d.movie_id == m') =
      st.filter (fun d => d.movie_id == m')) ∧
    ((processGroup now st group).map (fun d => d.id)).Nodup ∧
    (∀ d' ∈ processGroup now st group,
      ∃ d0 ∈ st, d'.id = d0.id ∧ d'.movie_id = d0.movie_id) := by
  have hpermlen := (sortDescBy_perm effTime group).length_eq
  cases hsort : sortDescBy effTime group with
  | nil =>
    rw [hsort] at hpermlen
    simp at hpermlen
    omega
  | cons keep rest =>
    have hsortperm : (sortDescBy effTime group).Perm group := sortDescBy_perm effTime group
    have hkeepgrp : keep ∈ group := by
      rw [← hsortperm.mem_iff, hsort]
      exact List.mem_cons_self _ _
    have hmemgrp : ∀ x ∈ group, x ∈ st ∧ x.movie_id = m := by
      intro x hx
      rw [← hgrp] at hx
      obtain ⟨hst, hmid⟩ := List.mem_filter.mp hx
      exact ⟨hst, by simpa using hmid⟩
    have hkeepst : keep ∈ st := (hmemgrp keep hkeepgrp).1
    have hkeepmid : keep.movie_id = m := (hmemgrp keep hkeepgrp).2
    have hrestgrp : ∀ x ∈ rest, x ∈ group := by
      intro x hx
      rw [← hsortperm.mem_iff, hsort]
      exact List.mem_cons_of_mem _ hx
    have hgrpids : (group.map (fun d => d.id)).Nodup := by
      rw [← hgrp]
      exact hnod.sublist ((List.filter_sublist st).map _)
    have hsortids : ((keep :: rest).map (fun d => d.id)).Nodup := by
      rw [← hsort]
      exact ((hsortperm.map _).nodup_iff).mpr hgrpids
    have hkeepnot : keep.id ∉ rest.map (fun r => r.id) := by
      simp only [List.map_cons, List.nodup_cons] at hsortids
      exact hsortids.1
    have hinj := List.inj_on_of_nodup_map hnod
    have hone : processGroup now st group =
        (st.map (fun d => if d.id == keep.id then mergePatch now group d else d)).filter
          (fun d => !((rest.map (fun r => r.id)).contains d.id)) := by
      simp only [processGroup, hsort]
    have hpatchpres : ∀ d : Doc,
        (if d.id == keep.id then mergePatch now group d else d).movie_id = d.movie_id := by
      intro d
      by_cases h : d.id == keep.id
      · rw [if_pos h]; rfl
      · rw [if_neg h]
    have hpatchid : ∀ d : Doc,
        (if d.id == keep.id then mergePatch now group d else d).id = d.id := by
      intro d
      by_cases h : d.id == keep.id
      · rw [if_pos h]; rfl
      · rw [if_neg h]
    have hmerged : mergedDoc now group = mergePatch now group keep := by
      simp [mergedDoc, canonicalOf, hsort]
    refine ⟨?_, ?_, ?_, ?_⟩
    · rw [hone, filter_comm_docs,
        map_filter_pres _ _ (fun d => by rw [hpatchpres d]), hgrp]
      have hperm2 : ((group.map
          (fun d => if d.id == keep.id then mergePatch now group d else d)).filter
          (fun d => !((rest.map (fun r => r.id)).contains d.id))).Perm
          (((keep :: rest).map
          (fun d => if d.id == keep.id then mergePatch now group d else d)).filter
          (fun d => !((rest.map (fun r => r.id)).contains d.id))) := by
        refine List.Perm.filter _ (List.Perm.map _ ?_)
        rw [← hsort]
        exact hsortperm.symm
      have hnil : ((rest.map
          (fun d => if d.id == keep.id then mergePatch now group d else d)).filter
          (fun d => !((rest.map (fun r => r.id)).contains d.id))) = [] := by
        rw [List.filter_eq_nil_iff]
        intro x hx
        obtain ⟨r, hr, hrx⟩ := List.mem_map.mp hx
        have hxid : x.id = r.id := by rw [← hrx, hpatchid r]
        have hmem : x.id ∈ rest.map (fun r => r.id) := by
          rw [hxid]
          exact List.mem_map.mpr ⟨r, hr, rfl⟩
        simp [hmem]
      have hqmem : (mergePatch now group keep).id ∉ rest.map (fun r => r.id) := by
        rw [mergePatch_id]
        exact hkeepnot
      have hfil : (((keep :: rest).map
          (fun d => if d.id == keep.id then mergePatch now group d else d)).filter
          (fun d => !((rest.map (fun r => r.id)).contains d.id))) =
          [mergePatch now group keep] := by
        rw [List.map_cons, if_pos (show (keep.id == keep.id) = true by simp),
          List.filter_cons, hnil]
        simp [hqmem]
      rw [hmerged]
      exact List.perm_singleton.mp (hperm2.trans (by rw [hfil]))
    · intro m' hm'
      rw [hone]
      apply filter_untouched _ _ _ (fun d => by rw [hpatchpres d])
      intro d hd hmid
      have hdm' : d.movie_id = m' := by simpa using hmid
      have hdnotm : d.movie_id ≠ m := by rw [hdm']; exact hm'
      have hpatch : (if d.id == keep.id then mergePatch now group d else d) = d := by
        by_cases h : d.id = keep.id
        · have hdk : d = keep := hinj hd hkeepst h
          rw [hdk] at hdnotm
          exact absurd hkeepmid hdnotm
        · rw [if_neg (by simpa using h)]
      have hnotdel : d.id ∉ rest.map (fun r => r.id) := by
        intro hmem
        obtain ⟨r, hr, hrid⟩ := List.mem_map.mp hmem
        have hrst := (hmemgrp r (hrestgrp r hr)).1
        have hrmid := (hmemgrp r (hrestgrp r hr)).2
        have : d = r := hinj hd hrst (by rw [hrid])
        rw [this] at hdnotm
        exact hdnotm hrmid
      exact ⟨hpatch, by simp [hnotdel]⟩
    · rw [hone]
      have hmapids : ((st.map
          (fun d => if d.id == keep.id then mergePatch now group d else d)).map
          (fun d => d.id)) = st.map (fun d => d.id) := by
        rw [List.map_map]
        apply map_eq_map_of
        intro d _
        exact hpatchid d
      have hsub : List.Sublist (((st.map
          (fun d => if d.id == keep.id then mergePatch now group d else d)).filter
          (fun d => !((rest.map (fun r => r.id)).contains d.id))).map (fun d => d.id))
          ((st.map (fun d => if d.id == keep.id then mergePatch now group d else d)).map
            (fun d => d.id)) :=
        (List.filter_sublist _).map _
      rw [hmapids] at hsub
      exact hnod.sublist hsub
    · rw [hone]
      intro d' hd'
      have hmem : d' ∈ st.map
          (fun d => if d.id == keep.id then mergePatch now group d else d) :=
        List.mem_of_mem_filter hd'
      obtain ⟨d, hd, heq⟩ := List.mem_map.mp hmem
      exact ⟨d, hd, by rw [← heq, hpatchid d], by rw [← heq, hpatchpres d]⟩

/-- Invariant of the group-processing fold: processed groups have
collapsed to their merged document, unprocessed movie ids still hold
their original documents, id-uniqueness persists, and every document
descends from an original one. -/
theorem cleanup_go (now : Nat) (store : List Doc) :
    ∀ (ms : List Nat) (st : List Doc) (f r : Nat),
      ms.Nodup →
      (st.map (fun d => d.id)).Nodup →
      (∀ m' ∈ ms, st.filter (fun d => d.movie_id == m') =
        store.filter (fun d => d.movie_id == m')) →
      (∀ d' ∈ st, ∃ d0 ∈ store, d'.id = d0.id ∧ d'.movie_id = d0.movie_id) →
      (∀ m' ∈ ms,
        (2 ≤ (store.filter (fun d => d.movie_id == m')).length →
          (ms.foldl (cleanupStep now store) (st, f, r)).1.filter
            (fun d => d.movie_id == m') =
            [mergedDoc now (store.filter (fun d => d.movie_id == m'))]) ∧
        ((store.filter (fun d => d.movie_id == m')).length < 2 →
          (ms.foldl (cleanupStep now store) (st, f, r)).1.filter
            (fun d => d.movie_id == m') =
            store.filter (fun d => d.movie_id == m'))) ∧
      (∀ m', m' ∉ ms →
        (ms.foldl (cleanupStep now store) (st, f, r)).1.filter
          (fun d => d.movie_id == m') = st.filter (fun d => d.movie_id == m')) ∧
      ((ms.foldl (cleanupStep now store) (st, f, r)).1.map (fun d => d.id)).Nodup ∧
      (∀ d' ∈ (ms.foldl (cleanupStep now store) (st, f, r)).1,
        ∃ d0 ∈ store, d'.id = d0.id ∧ d'.movie_id = d0.movie_id) := by
  intro ms
  induction ms with
  | nil =>
    intro st f r _ hstnod _ horig
    exact ⟨fun m' hm' => absurd hm' (List.not_mem_nil m'),
      fun m' _ => rfl, hstnod, horig⟩
  | cons m ms' ih =>
    intro st f r hnodms hstnod huntouched horig
    have hmnotin : m ∉ ms' := (List.nodup_cons.mp hnodms).1
    have hnodms' : ms'.Nodup := (List.nodup_cons.mp hnodms).2
    simp only [List.foldl_cons]
    by_cases hlen : (store.filter (fun d => d.movie_id == m)).length > 1
    · have hgrp : st.filter (fun d => d.movie_id == m) =
          store.filter (fun d => d.movie_id == m) :=
        huntouched m (List.mem_cons_self _ _)
      obtain ⟨hA, hB, hC, hD⟩ := processGroup_spec now m st
        (store.filter (fun d => d.movie_id == m)) hgrp (by omega) hstnod
      have hstep : cleanupStep now store (st, f, r) m =
          (processGroup now st (store.filter (fun d => d.movie_id == m)), f + 1,
            r + ((store.filter (fun d => d.movie_id == m)).length - 1)) := by
        simp only [cleanupStep]
        rw [if_pos hlen]
      rw [hstep]
      obtain ⟨ih1, ih2, ih3, ih4⟩ := ih
        (processGroup now st (store.filter (fun d => d.movie_id == m)))
        (f + 1) (r + ((store.filter (fun d => d.movie_id == m)).length - 1))
        hnodms' hC
        (fun m' hm' => by
          have hmne : m' ≠ m := fun he => hmnotin (he ▸ hm')
          rw [hB m' hmne]
          exact huntouched m' (List.mem_cons_of_mem _ hm'))
        (fun d' hd' => by
          obtain ⟨d0, hd0, h1, h2⟩ := hD d' hd'
          obtain ⟨d1, hd1, h3, h4⟩ := horig d0 hd0
          exact ⟨d1, hd1, by rw [h1, h3], by rw [h2, h4]⟩)
      refine ⟨?_, ?_, ih3, ih4⟩
      · intro m' hm'
        rcases List.mem_cons.mp hm' with he | ht
        · subst he
          constructor
          · intro _
            rw [ih2 m' hmnotin, hA]
          · intro hlt
            omega
        · exact ih1 m' ht
      · intro m' hm'
        have hne : m' ≠ m := fun he => hm' (he ▸ List.mem_cons_self _ _)
        have hnotin' : m' ∉ ms' := fun hin => hm' (List.mem_cons_of_mem _ hin)
        rw [ih2 m' hnotin', hB m' hne]
    · have hstep : cleanupStep now store (st, f, r) m = (st, f, r) := by
        simp only [cleanupStep]
        rw [if_neg hlen]
      rw [hstep]
      obtain ⟨ih1, ih2, ih3, ih4⟩ := ih st f r hnodms' hstnod
        (fun m' hm' => huntouched m' (List.mem_cons_of_mem _ hm')) horig
      refine ⟨?_, ?_, ih3, ih4⟩
      · intro m' hm'
        rcases List.mem_cons.mp hm' with he | ht
        · subst he
          constructor
          · intro h2le
            omega
          · intro _
            rw [ih2 m' hmnotin]
            exact huntouched m' (List.mem_cons_self _ _)
        · exact ih1 m' ht
      · intro m' hm'
        have hnotin' : m' ∉ ms' := fun hin => hm' (List.mem_cons_of_mem _ hin)
        exact ih2 m' hnotin'

/-- A full reconciliation pass over a collection that fits in the
100-document load window: every movie id with at least two documents
collapses to its merged document, every other movie id keeps its
documents, and every surviving document descends from a stored one. -/
theorem cleanup_main (now : Nat) (store : List Doc)
    (h100 : store.take 100 = store)
    (hids : (store.map (fun d => d.id)).Nodup) :
    ∀ m : Nat,
      (2 ≤ (store.filter (fun d => d.movie_id == m)).length →
        (cleanupDuplicateMovies now store).1.filter (fun d => d.movie_id == m) =
          [mergedDoc now (store.filter (fun d => d.movie_id == m))]) ∧
      ((store.filter (fun d => d.movie_id == m)).length < 2 →
        (cleanupDuplicateMovies now store).1.filter (fun d => d.movie_id == m) =
          store.filter (fun d => d.movie_id == m)) ∧
      (∀ d' ∈ (cleanupDuplicateMovies now store).1,
        ∃ d0 ∈ store, d'.id = d0.id ∧ d'.movie_id = d0.movie_id) := by
  intro m
  have hrw : cleanupDuplicateMovies now store =
      (groupKeys store).foldl (cleanupStep now store) (store, 0, 0) := by
    simp only [cleanupDuplicateMovies, h100]
  obtain ⟨h1, h2, h3, h4⟩ := cleanup_go now store (groupKeys store) store 0 0
    (groupKeys_nodup store) hids (fun m' _ => rfl) (fun d' hd' => ⟨d', hd', rfl, rfl⟩)
  by_cases hmem : m ∈ groupKeys store
  · obtain ⟨ha, hb⟩ := h1 m hmem
    refine ⟨?_, ?_, ?_⟩
    · intro h2le
      rw [hrw]
      exact ha h2le
    · intro hlt
      rw [hrw]
      exact hb hlt
    · intro d' hd'
      rw [hrw] at hd'
      exact h4 d' hd'
  · have hempty : store.filter (fun d => d.movie_id == m) = [] := by
      rw [List.filter_eq_nil_iff]
      intro d hd hbeq
      apply hmem
      rw [groupKeys_mem]
      exact List.mem_map.mpr ⟨d, hd, by simpa using hbeq⟩
    refine ⟨?_, ?_, ?_⟩
    · intro h2le
      rw [hempty] at h2le
      simp at h2le
    · intro _
      rw [hrw]
      exact h2 m hmem
    · intro d' hd'
      rw [hrw] at hd'
      exact h4 d' hd'

/-- After one pass over a window-sized collection, at most one document
per movie id remains. -/
theorem cleanup_le_one (now : Nat) (store : List Doc)
    (h100 : store.take 100 = store)
    (hids : (store.map (fun d => d.id)).Nodup) (m : Nat) :
    ((cleanupDuplicateMovies now store).1.filter
      (fun d => d.movie_id == m)).length ≤ 1 := by
  obtain ⟨ha, hb, -⟩ := cleanup_main now store h100 hids m
  by_cases h : 2 ≤ (store.filter (fun d => d.movie_id == m)).length
  · rw [ha h]
    simp
  · have := hb (by omega)
    rw [this]
    omega

/-- A pass over a duplicate-free collection changes nothing and reports
zero groups found and zero records removed. -/
theorem cleanup_noop (now : Nat) (st : List Doc)
    (hone : ∀ m, (st.filter (fun d => d.movie_id == m)).length ≤ 1) :
    cleanupDuplicateMovies now st = (st, 0, 0) := by
  have hstep : ∀ (acc : List Doc × Nat × Nat) (m : Nat),
      cleanupStep now (st.take 100) acc m = acc := by
    intro acc m
    simp only [cleanupStep]
    rw [if_neg]
    have hsub : List.Sublist ((st.take 100).filter (fun d => d.movie_id == m))
        (st.filter (fun d => d.movie_id == m)) :=
      (List.take_sublist 100 st).filter _
    have hle := hsub.length_le
    have := hone m
    omega
  have hfold : ∀ (ms : List Nat) (acc : List Doc × Nat × Nat),
      ms.foldl (cleanupStep now (st.take 100)) acc = acc := by
    intro ms
    induction ms with
    | nil => intro acc; rfl
    | cons a t ih =>
      intro acc
      rw [List.foldl_cons, hstep acc a]
      exact ih acc
  simp only [cleanupDuplicateMovies]
  exact hfold _ _

theorem canonicalOf_mem (group : List Doc) (hne : group ≠ []) :
    canonicalOf group ∈ group := by
  have hperm := sortDescBy_perm effTime group
  cases hs : sortDescBy effTime group with
  | nil =>
    rw [hs] at hperm
    exact absurd (hperm.symm.eq_nil) hne
  | cons k t =>
    rw [← hperm.mem_iff, hs]
    simp [canonicalOf, hs]

/-- C3 (amended): for a collection that fits the reconciler's
100-document load window, has unique document ids, and holds more than
one record for movie id `m`, one run of the Duplicate Reconciler leaves
exactly the merged document for `m`: its count is the sum of the
members' counts, its `searchTerms` the duplicate-free union (in
first-occurrence order) of the members' term lists (a legacy single
`searchTerm` counting as a one-element list), its `lastSearchTerm` the
last element of that merged list, it sits on the canonical member (the
one with the latest update timestamp, falling back to creation
timestamp), and every non-canonical member's document id is gone from
the collection. -/
theorem C3_reconciler_merges (now m : Nat) (store : List Doc)
    (h100 : store.length ≤ 100)
    (hids : (store.map (fun d => d.id)).Nodup)
    (hdup : 2 ≤ (store.filter (fun d => d.movie_id == m)).length) :
    (cleanupDuplicateMovies now store).1.filter (fun d => d.movie_id == m) =
      [mergedDoc now (store.filter (fun d => d.movie_id == m))] ∧
    (mergedDoc now (store.filter (fun d => d.movie_id == m))).count =
      some (((store.filter (fun d => d.movie_id == m)).map countVal).sum) ∧
    (mergedDoc now (store.filter (fun d => d.movie_id == m))).searchTerms =
      some (dedupStringsAux []
        (termsConcat (store.filter (fun d => d.movie_id == m)))) ∧
    (mergedDoc now (store.filter (fun d => d.movie_id == m))).lastSearchTerm =
      some ((dedupStringsAux []
        (termsConcat (store.filter (fun d => d.movie_id == m)))).getLastD "") ∧
    canonicalOf (store.filter (fun d => d.movie_id == m)) ∈
      store.filter (fun d => d.movie_id == m) ∧
    (∀ d ∈ store.filter (fun d => d.movie_id == m),
      effTime d ≤ effTime (canonicalOf (store.filter (fun d => d.movie_id == m)))) ∧
    (mergedDoc now (store.filter (fun d => d.movie_id == m))).id =
      (canonicalOf (store.filter (fun d => d.movie_id == m))).id ∧
    (∀ d ∈ store.filter (fun d => d.movie_id == m),
      d.id ≠ (canonicalOf (store.filter (fun d => d.movie_id == m))).id →
      ∀ d' ∈ (cleanupDuplicateMovies now store).1, d'.id ≠ d.id) := by
  have htake : store.take 100 = store := List.take_of_length_le h100
  obtain ⟨hmain1, -, horig⟩ := cleanup_main now store htake hids m
  have hcol := hmain1 hdup
  have hne : store.filter (fun d => d.movie_id == m) ≠ [] := by
    intro h
    rw [h] at hdup
    simp at hdup
  refine ⟨hcol, ?_, ?_, ?_, canonicalOf_mem _ hne, ?_, ?_, ?_⟩
  · simp [mergedDoc, mergePatch, groupCount_eq]
  · simp [mergedDoc, mergePatch, groupTerms_eq]
  · simp [mergedDoc, mergePatch, groupTerms_eq]
  · intro d hd
    exact sortDescBy_head_max effTime (store.filter (fun d => d.movie_id == m)) d hd
  · rfl
  · intro d hd hneid d' hd' heq
    obtain ⟨d0, hd0, hid0, hmid0⟩ := horig d' hd'
    obtain ⟨hdst, hdmid⟩ := List.mem_filter.mp hd
    have hd0id : d0.id = d.id := by rw [← hid0, heq]
    have hd0d : d0 = d := List.inj_on_of_nodup_map hids hd0 hdst hd0id
    have hdmem : d' ∈ (cleanupDuplicateMovies now store).1.filter
        (fun d => d.movie_id == m) := by
      rw [List.mem_filter]
      refine ⟨hd', ?_⟩
      rw [hmid0, hd0d]
      exact hdmid
    rw [hcol] at hdmem
    have : d' = mergedDoc now (store.filter (fun d => d.movie_id == m)) := by
      simpa using hdmem
    apply hneid
    rw [← heq, this]
    rfl

/-- A minimal aggregate document used in concrete reconciler scenarios. -/
def mkDoc (i mid : Nat) : Doc :=
  { (default : Doc) with id := i, movie_id := mid, count := some 1, createdAt := i }

/-- 101 documents: ids 0 and 100 both carry movie id 42, every other
document a distinct movie id; the duplicate pair straddles the
100-document load window. -/
def cstoreC3 : List Doc :=
  (List.range 100).map (fun i => mkDoc i (if i = 0 then 42 else i + 1000)) ++
    [mkDoc 100 42]

/-- C3 (counterexample): in a 101-document collection whose duplicate
group for movie 42 straddles the `Query.limit(100)` load window, a run
of the Duplicate Reconciler leaves both rows for movie 42 in place — no
merged count is written and no non-canonical member is deleted, contrary
to the claim's promise for every group of persisted records. -/
theorem C3_reconciler_merges_counterexample :
    2 ≤ (cstoreC3.filter (fun d => d.movie_id == 42)).length ∧
    ((cleanupDuplicateMovies 99 cstoreC3).1.filter
      (fun d => d.movie_id == 42)).length = 2 := by
  constructor
  · decide
  · decide

/-- The claim's concrete scenario: three rows for movie 42 with counts
3, 1, 2 and term lists `["batman"]`, `["dark knight"]`,
`["batman", "joker"]`. -/
def exStore42 : List Doc :=
  [{ (default : Doc) with
     id := 1
     movie_id := 42
     count := some 3
     searchTerms := some ["batman"]
     createdAt := 1 },
   { (default : Doc) with
     id := 2
     movie_id := 42
     count := some 1
     searchTerms := some ["dark knight"]
     createdAt := 2 },
   { (default : Doc) with
     id := 3
     movie_id := 42
     count := some 2
     searchTerms := some ["batman", "joker"]
     createdAt := 3 }]

/-- C3 (witness): on the claim's concrete scenario the reconciler leaves
exactly one row for movie 42, with count 6 and searchTerms
`["batman", "dark knight", "joker"]`. -/
theorem C3_reconciler_merges_witness :
    (cleanupDuplicateMovies 99 exStore42).1.filter (fun d => d.movie_id == 42) =
      [mergedDoc 99 (exStore42.filter (fun d => d.movie_id == 42))] ∧
    (mergedDoc 99 (exStore42.filter (fun d => d.movie_id == 42))).count = some 6 ∧
    (mergedDoc 99 (exStore42.filter (fun d => d.movie_id == 42))).searchTerms =
      some ["batman", "dark knight", "joker"] ∧
    (mergedDoc 99 (exStore42.filter (fun d => d.movie_id == 42))).lastSearchTerm =
      some "joker" ∧
    ((cleanupDuplicateMovies 99 exStore42).1.filter
      (fun d => d.movie_id == 42)).length = 1 := by
  have h := C3_reconciler_merges 99 42 exStore42 (by decide) (by decide) (by decide)
  exact ⟨h.1, by decide, by decide, by decide, by decide⟩

/-- C5 (amended): for every collection state that fits the reconciler's
100-document load window and has unique document ids, running the
Duplicate Reconciler twice in a row with no intervening writes yields
`duplicatesFound = 0` and `recordsRemoved = 0` on the second run and
leaves the whole collection — in particular the canonical record of
every merged group — unchanged by the second run. -/
theorem C5_reconciler_idempotent (now1 now2 : Nat) (store : List Doc)
    (h100 : store.length ≤ 100)
    (hids : (store.map (fun d => d.id)).Nodup) :
    cleanupDuplicateMovies now2 (cleanupDuplicateMovies now1 store).1 =
      ((cleanupDuplicateMovies now1 store).1, 0, 0) :=
  cleanup_noop now2 _
    (cleanup_le_one now1 store (List.take_of_length_le h100) hids)

/-- C5 (witness): a two-document duplicate pair is merged by the first
run; the second run removes nothing and leaves the collection as is. -/
theorem C5_reconciler_idempotent_witness :
    cleanupDuplicateMovies 6 (cleanupDuplicateMovies 5 [mkDoc 0 7, mkDoc 1 7]).1 =
      ((cleanupDuplicateMovies 5 [mkDoc 0 7, mkDoc 1 7]).1, 0, 0) :=
  C5_reconciler_idempotent 5 6 [mkDoc 0 7, mkDoc 1 7] (by decide) (by decide)

/-- 101 documents: ids 0 and 1 duplicate movie id 1; ids 2..99 carry
movie ids 2..99; id 100 duplicates movie id 2 but sits outside the
100-document load window. -/
def cstore101 : List Doc :=
  (List.range 100).map (fun i => mkDoc i (if i ≤ 1 then 1 else i)) ++ [mkDoc 100 2]

/-- C5 (counterexample): on a 101-document collection the first
reconciler run removes one duplicate, which shifts the 101st document
into the 100-document load window; the second run — with no intervening
writes — then finds and removes another duplicate, reporting
`recordsRemoved = 1`, not the `0` the claim requires for every
collection state. -/
theorem C5_reconciler_idempotent_counterexample :
    (cleanupDuplicateMovies 100 cstore101).2.2 = 1 ∧
    (cleanupDuplicateMovies 200 (cleanupDuplicateMovies 100 cstore101).1).2.2 = 1 ∧
    (1 : Nat) ≠ 0 := by
  refine ⟨by decide, by decide, by omega⟩

/-! ### Reconciler failure semantics (the `try/catch` of lines 207-285)

The store mutations (`updateDocument`, then the `deleteDocument` loop,
group after group) may throw; `oracle i` gives the failure (if any) of
the `i`-th mutation of the pass.  A thrown error aborts the pass with
the collection in its partially-mutated state; the `catch` block then
returns `{duplicatesFound: 0, duplicatesRemoved: 0, error: message}` —
the counts of the aborted pass are discarded.  An `Except.error` of the
body carries the partial state, the partial-progress counts at the
failure point, and the message. -/

def deleteDocsF (oracle : Nat → Option String) :
    List Doc → Nat → List Doc → Nat →
      Except (List Doc × Nat × String) (List Doc × Nat × Nat)
  | [], opIdx, st, removed => Except.ok (st, opIdx, removed)
  | r :: rs, opIdx, st, removed =>
    match oracle opIdx with
    | some msg => Except.error (st, removed, msg)
    | none =>
      deleteDocsF oracle rs (opIdx + 1) (st.filter (fun d => !(d.id == r.id)))
        (removed + 1)

def processGroupF (now : Nat) (oracle : Nat → Option String) (opIdx : Nat)
    (st group : List Doc) (removed : Nat) :
    Except (List Doc × Nat × String) (List Doc × Nat × Nat) :=
  match sortDescBy effTime group with
  | [] => Except.ok (st, opIdx, removed)
  | keep :: rest =>
    match oracle opIdx with
    | some msg => Except.error (st, removed, msg)
    | none =>
      deleteDocsF oracle rest (opIdx + 1)
        (st.map (fun d => if d.id == keep.id then mergePatch now group d else d))
        removed

def cleanupGoF (now : Nat) (oracle : Nat → Option String) (allDocs : List Doc) :
    List Nat → List Doc → Nat → Nat → Nat →
      Except (List Doc × Nat × Nat × String) (List Doc × Nat × Nat)
  | [], st, _, f, r => Except.ok (st, f, r)
  | m :: ms, st, opIdx, f, r =>
    let group := allDocs.filter (fun d => d.movie_id == m)
    if group.length > 1 then
      match processGroupF now oracle opIdx st group r with
      | Except.error (st', r', msg) => Except.error (st', f + 1, r', msg)
      | Except.ok (st', opIdx', r') =>
        cleanupGoF now oracle allDocs ms st' opIdx' (f + 1) r'
    else cleanupGoF now oracle allDocs ms st opIdx f r

/-- `cleanupDuplicateMovies` with possible mutation failures: final
collection state, `duplicatesFound`, `duplicatesRemoved`, and the
caught error message (if any). -/
def cleanupDuplicateMoviesF (now : Nat) (oracle : Nat → Option String)
    (store : List Doc) : List Doc × Nat × Nat × Option String :=
  match cleanupGoF now oracle (store.take 100) (groupKeys (store.take 100))
      store 0 0 0 with
  | Except.ok (st, f, r) => (st, f, r, none)
  | Except.error (st, _, _, msg) => (st, 0, 0, some msg)

theorem deleteDocsF_pure :
    ∀ (rest : List Doc) (opIdx : Nat) (st : List Doc) (removed : Nat),
      deleteDocsF (fun _ => none) rest opIdx st removed =
        Except.ok (st.filter (fun d => !((rest.map (fun r => r.id)).contains d.id)),
          opIdx + rest.length, removed + rest.length) := by
  intro rest
  induction rest with
  | nil =>
    intro opIdx st removed
    simp [deleteDocsF]
  | cons r rs ih =>
    intro opIdx st removed
    simp only [deleteDocsF]
    rw [ih (opIdx + 1) (st.filter (fun d => !(d.id == r.id))) (removed + 1)]
    have hfil : (st.filter (fun d => !(d.id == r.id))).filter
        (fun d => !((rs.map (fun r => r.id)).contains d.id)) =
        st.filter (fun d => !(((r :: rs).map (fun r => r.id)).contains d.id)) := by
      rw [List.filter_filter]
      apply List.filter_congr
      intro d _
      simp only [List.map_cons, List.contains_cons]
      cases hdr : d.id == r.id with
      | true =>
        have h2 : (r.id == d.id) = true := by
          rw [beq_iff_eq] at hdr ⊢
          omega
        simp [h2, hdr]
      | false =>
        have h2 : (r.id == d.id) = false := by
          rw [beq_eq_false_iff_ne] at hdr ⊢
          omega
        simp [h2, hdr]
    rw [hfil]
    have h3 : opIdx + 1 + rs.length = opIdx + (r :: rs).length := by
      simp only [List.length_cons]
      omega
    have h4 : removed + 1 + rs.length = removed + (r :: rs).length := by
      simp only [List.length_cons]
      omega
    rw [h3, h4]

theorem processGroupF_pure (now : Nat) (opIdx : Nat) (st group : List Doc)
    (removed : Nat) (hlen : 1 ≤ group.length) :
    processGroupF now (fun _ => none) opIdx st group removed =
      Except.ok (processGroup now st group,
        opIdx + group.length, removed + (group.length - 1)) := by
  have hpermlen := (sortDescBy_perm effTime group).length_eq
  cases hsort : sortDescBy effTime group with
  | nil =>
    rw [hsort] at hpermlen
    simp at hpermlen
    omega
  | cons keep rest =>
    rw [hsort] at hpermlen
    simp only [List.length_cons] at hpermlen
    have e1 : opIdx + 1 + rest.length = opIdx + group.length := by omega
    have e2 : removed + rest.length = removed + (group.length - 1) := by omega
    simp only [processGroupF, hsort]
    rw [deleteDocsF_pure, e1, e2]
    simp only [processGroup, hsort]

theorem cleanupGoF_pure (now : Nat) (allDocs : List Doc) :
    ∀ (ms : List Nat) (st : List Doc) (opIdx f r : Nat),
      cleanupGoF now (fun _ => none) allDocs ms st opIdx f r =
        Except.ok (ms.foldl (cleanupStep now allDocs) (st, f, r)) := by
  intro ms
  induction ms with
  | nil =>
    intro st opIdx f r
    rfl
  | cons m ms' ih =>
    intro st opIdx f r
    simp only [cleanupGoF, List.foldl_cons]
    by_cases hlen : (allDocs.filter (fun d => d.movie_id == m)).length > 1
    · rw [if_pos hlen,
        processGroupF_pure now opIdx st (allDocs.filter (fun d => d.movie_id == m)) r
          (by omega)]
      have hstep : cleanupStep now allDocs (st, f, r) m =
          (processGroup now st (allDocs.filter (fun d => d.movie_id == m)), f + 1,
            r + ((allDocs.filter (fun d => d.movie_id == m)).length - 1)) := by
        simp only [cleanupStep]
        rw [if_pos hlen]
      rw [hstep]
      exact ih _ _ (f + 1) _
    · rw [if_neg hlen]
      have hstep : cleanupStep now allDocs (st, f, r) m = (st, f, r) := by
        simp only [cleanupStep]
        rw [if_neg hlen]
      rw [hstep]
      exact ih st opIdx f r

/-- With no mutation failures the failure-aware reconciler coincides
with the pure one and reports no error. -/
theorem cleanupDuplicateMoviesF_pure (now : Nat) (store : List Doc) :
    cleanupDuplicateMoviesF now (fun _ => none) store =
      ((cleanupDuplicateMovies now store).1, (cleanupDuplicateMovies now store).2.1,
        (cleanupDuplicateMovies now store).2.2, none) := by
  have hgo := cleanupGoF_pure now (store.take 100)
    (groupKeys (store.take 100)) store 0 0 0
  simp only [cleanupDuplicateMoviesF, hgo, cleanupDuplicateMovies]

/-- C9 (amended): when the reconciler's pass fails partway through, the
failure is surfaced to the caller as a normal return carrying the error
message and the partially-mutated collection state — but with
`duplicatesFound = 0` and `duplicatesRemoved = 0`, the literal zeros of
the catch block, not the partial-progress counts accumulated before the
failure. -/
theorem C9_failure_returns_zeroed_counts (now : Nat)
    (oracle : Nat → Option String) (store st : List Doc) (f r : Nat)
    (msg : String)
    (hfail : cleanupGoF now oracle (store.take 100) (groupKeys (store.take 100))
      store 0 0 0 = Except.error (st, f, r, msg)) :
    cleanupDuplicateMoviesF now oracle store = (st, 0, 0, some msg) := by
  simp only [cleanupDuplicateMoviesF, hfail]

/-- Two duplicate pairs: ids 0/1 for movie 1 and ids 2/3 for movie 2. -/
def cstoreC9 : List Doc := [mkDoc 0 1, mkDoc 1 1, mkDoc 2 2, mkDoc 3 2]

/-- The third mutation of the pass (the `updateDocument` of the second
group) throws. -/
def oracleC9 : Nat → Option String := fun i => if i = 2 then some "db down" else none

/-- C9 (counterexample): a pass over two duplicate groups fails on its
third mutation after fully merging the first group (one record already
removed, two groups already entered — partial-progress counts (2, 1)),
yet the caller receives `duplicatesFound = 0` and
`duplicatesRemoved = 0` together with the error message, not the
partial-progress counts the claim promises. -/
theorem C9_failure_counterexample :
    cleanupGoF 9 oracleC9 (cstoreC9.take 100) (groupKeys (cstoreC9.take 100))
      cstoreC9 0 0 0 =
      Except.error ((cleanupDuplicateMoviesF 9 oracleC9 cstoreC9).1, 2, 1, "db down") ∧
    (cleanupDuplicateMoviesF 9 oracleC9 cstoreC9).2.1 = 0 ∧
    (cleanupDuplicateMoviesF 9 oracleC9 cstoreC9).2.2.1 = 0 ∧
    (cleanupDuplicateMoviesF 9 oracleC9 cstoreC9).2.2.2 = some "db down" ∧
    ((2 : Nat), (1 : Nat)) ≠ ((0 : Nat), (0 : Nat)) := by
  refine ⟨by rfl, by decide, by decide, by decide, by decide⟩

/-- C9 (witness): the amended theorem applied to the concrete failing
pass of `cstoreC9`. -/
theorem C9_failure_returns_zeroed_counts_witness :
    cleanupDuplicateMoviesF 9 oracleC9 cstoreC9 =
      ((cleanupDuplicateMoviesF 9 oracleC9 cstoreC9).1, 0, 0, some "db down") :=
  C9_failure_returns_zeroed_counts 9 oracleC9 cstoreC9
    (cleanupDuplicateMoviesF 9 oracleC9 cstoreC9).1 2 1 "db down" (by rfl)

end MovieApp
